import Mathlib

/-!
Shallow embedding of `drain.go` (Go package `drain`, an online log template
miner, a port of Drain3).  Modelling conventions:

* Go maps are association lists carrying one fixed iteration order
  (`range` order over a Go map is unspecified; where a claim depends on it,
  the order is an explicit parameter).
* A compiled `regexp.Regexp` is modelled by its full-match language;
  `regexp.MatchString` is containment of some substring in that language.
* `float64` similarity arithmetic is modelled by exact rational arithmetic.
* Go panics (nil dereference, out-of-range index, explicit `panic`) are
  modelled as `Except.error ()`.
* The `simplelru.LRU` cluster cache is a list of key/value pairs kept in
  most-recently-used-first order.
-/

/-- A compiled Go regular expression, modelled by the set of character lists
the pattern matches in full (a decidable predicate).  This is the component
the spec declares external; concrete instances below pin concrete languages. -/
structure GoRegex where
  fullMatch : List Char → Bool

/-- All contiguous sublists (infixes) of a list, with duplicates. -/
def infixesOf (l : List Char) : List (List Char) :=
  l.tails.flatMap List.inits

/-- Go `regexp.MatchString`: true iff some contiguous substring of `s` lies in
the pattern's full-match language (Go matching is unanchored). -/
def GoRegex.MatchString (r : GoRegex) (s : String) : Bool :=
  (infixesOf s.data).any r.fullMatch

/-- Go `unicode.IsNumber` restricted to ASCII (all tokens appearing in this
development are ASCII; non-ASCII Unicode numerals are not modelled). -/
def goIsNumber (c : Char) : Bool := c.isDigit

/-- `Drain.hasNumbers` from drain.go: does any character satisfy
`unicode.IsNumber`? -/
def hasNumbers (s : String) : Bool := s.data.any goIsNumber

/-- Go `unicode.IsSpace` restricted to the Latin-1 characters it lists. -/
def goIsSpace (c : Char) : Bool :=
  c = ' ' || c = '\t' || c = '\n' || c = '\x0b' || c = '\x0c' || c = '\r' ||
  c = '\x85' || c = '\xa0'

/-- Go `strings.TrimSpace` on a character list. -/
def trimSpaceChars (l : List Char) : List Char :=
  ((l.dropWhile goIsSpace).reverse.dropWhile goIsSpace).reverse

/-- Go `strings.Split` with a single-character separator: the result always
has one more element than the number of separators (never empty). -/
def splitOnChar (sep : Char) : List Char → List (List Char)
  | [] => [[]]
  | c :: rest =>
    if c = sep then [] :: splitOnChar sep rest
    else
      match splitOnChar sep rest with
      | [] => [[c]]
      | t :: ts => (c :: t) :: ts

/-- `SpaceTokenizer` from drain.go: `strings.TrimSpace` then `strings.Split`
on the single space character. -/
def SpaceTokenizer (content : String) : List String :=
  (splitOnChar ' ' (trimSpaceChars content.data)).map (fun l => String.mk l)

/-- A `float64` value produced by drain.go, modelled as an exact fraction.
The only division the code performs is `float64(simTokens)/float64(len)`, so
every value is a ratio of small integers (real-number arithmetic is modelled
exactly; denominators are positive in every reachable computation). -/
structure GoFloat where
  num : Int
  den : Int
deriving DecidableEq, Repr

/-- Exact `<` on modelled floats (cross multiplication, positive dens). -/
def GoFloat.blt (a b : GoFloat) : Bool := a.num * b.den < b.num * a.den

/-- Exact `==` on modelled floats. -/
def GoFloat.beq (a b : GoFloat) : Bool := a.num * b.den = b.num * a.den

/-- Exact `<=` on modelled floats. -/
def GoFloat.ble (a b : GoFloat) : Bool := a.num * b.den ≤ b.num * a.den

/-- The rational value of a modelled float. -/
def GoFloat.toRat (a : GoFloat) : ℚ := (a.num : ℚ) / (a.den : ℚ)

/-- `Config` from drain.go.  `SimTh` (a `float64` in Go) is modelled as an
exact fraction.  `ParamPatterns` (a Go map) is an association list in one
fixed iteration order. -/
structure Config where
  maxNodeDepth : Nat
  ClusterDepth : Nat
  SimTh : GoFloat
  MaxChildren : Nat
  MaxClusters : Nat
  ParamPatterns : List (String × GoRegex)
  Tokenizer : String → List String

/-- `Cluster` from drain.go. -/
structure Cluster where
  tokens : List String
  id : Nat
  size : Nat
deriving DecidableEq, Repr

/-- `math.MaxInt` on a 64-bit platform. -/
def goMaxInt : Nat := 9223372036854775807

/-- `ClusterCache` from drain.go, wrapping `simplelru.LRU`.  `entries` is in
most-recently-used-first order; `simplelru` keys unique. -/
structure ClusterCache where
  capacity : Nat
  entries : List (Nat × Cluster)
deriving DecidableEq, Repr

/-- `createClusterCache`: capacity 0 means unbounded (`math.MaxInt`). -/
def createClusterCache (maxSize : Nat) : ClusterCache :=
  ⟨if maxSize = 0 then goMaxInt else maxSize, []⟩

/-- `simplelru.LRU.Peek` via `ClusterCache`: lookup without touching recency. -/
def ClusterCache.Peek (c : ClusterCache) (k : Nat) : Option Cluster :=
  (c.entries.find? (fun e => e.1 = k)).map (fun e => e.2)

/-- `ClusterCache.Get` from drain.go: delegates to `simplelru.LRU.Get`, which
moves a hit to the most-recently-used position (this DOES touch recency). -/
def ClusterCache.Get (c : ClusterCache) (k : Nat) : Option Cluster × ClusterCache :=
  match c.entries.find? (fun e => e.1 = k) with
  | none => (none, c)
  | some e => (some e.2, ⟨c.capacity, e :: c.entries.eraseP (fun e2 => e2.1 = k)⟩)

/-- `ClusterCache.Set` from drain.go (`simplelru.LRU.Add`): insert at the
front or refresh-and-move-to-front; on overflow evict the oldest entry. -/
def ClusterCache.Set (c : ClusterCache) (k : Nat) (v : Cluster) : ClusterCache :=
  match c.entries.find? (fun e => e.1 = k) with
  | some _ => ⟨c.capacity, (k, v) :: c.entries.eraseP (fun e2 => e2.1 = k)⟩
  | none =>
    let es := (k, v) :: c.entries
    ⟨c.capacity, if c.capacity < es.length then es.dropLast else es⟩

/-- In-place mutation of the cluster record a Go pointer refers to: the cache
entry's value changes, recency order does not. -/
def ClusterCache.mutate (c : ClusterCache) (k : Nat) (f : Cluster → Cluster) : ClusterCache :=
  ⟨c.capacity, c.entries.map (fun e => if e.1 = k then (e.1, f e.2) else e)⟩

/-- `ClusterCache.Values` from drain.go: `Keys` (oldest first) then `Peek`. -/
def ClusterCache.Values (c : ClusterCache) : List Cluster :=
  c.entries.reverse.map (fun e => e.2)

/-- `Node` from drain.go.  The Go map `keyToChildNode` is an association list
with unique keys (lookup and insertion below are order-independent). -/
inductive Node where
  | mk (keyToChildNode : List (String × Node)) (clusterIDs : List Nat)

def Node.keyToChildNode : Node → List (String × Node)
  | .mk cs _ => cs

def Node.clusterIDs : Node → List Nat
  | .mk _ ids => ids

/-- `createNode` from drain.go. -/
def createNode : Node := .mk [] []

/-- Go map lookup `m[k]` on a child map. -/
def lookupChild (cs : List (String × Node)) (k : String) : Option Node :=
  (cs.find? (fun p => p.1 = k)).map (fun p => p.2)

/-- Go map insertion `m[k] = v` on a child map: replace in place if the key
is present, otherwise append. -/
def setChild (cs : List (String × Node)) (k : String) (v : Node) : List (String × Node) :=
  if (lookupChild cs k).isSome then
    cs.map (fun p => if p.1 = k then (k, v) else p)
  else
    cs ++ [(k, v)]

/-- `Drain.getParamString` from drain.go: iterate the pattern map (in the
modelled order) and return the first label whose regex matches the token
(`MatchString`, i.e. substring semantics); empty sentinel if none does. -/
def getParamString (pp : List (String × GoRegex)) (token : String) : String :=
  match pp.find? (fun p => p.2.MatchString token) with
  | some p => p.1
  | none => ""

/-- Membership test `_, ok := d.config.ParamPatterns[token]` from
`getSeqDistance`: is the token literally one of the configured labels? -/
def isParamKey (pp : List (String × GoRegex)) (token : String) : Bool :=
  pp.any (fun p => p.1 = token)

/-- The loop body of `Drain.getSeqDistance`: counts `(simTokens, paramCount)`
over the paired positions. -/
def simCounts (pp : List (String × GoRegex)) : List (String × String) → Nat × Nat
  | [] => (0, 0)
  | (t1, t2) :: rest =>
    let (s, p) := simCounts pp rest
    if isParamKey pp t1 then (s, p + 1)
    else if t1 = t2 then (s + 1, p) else (s, p)

/-- `Drain.getSeqDistance` from drain.go.  Panics (error) on length mismatch;
otherwise returns `simTokens / len` (with `paramCount` folded in when
`includeParams`) and `paramCount`.  The float division is kept as the exact
fraction `⟨simTokens, len⟩`. -/
def getSeqDistance (pp : List (String × GoRegex)) (seq1 seq2 : List String)
    (includeParams : Bool) : Except Unit (GoFloat × Nat) :=
  if seq1.length ≠ seq2.length then .error ()
  else
    let (simTokens, paramCount) := simCounts pp (seq1.zip seq2)
    let st := if includeParams then simTokens + paramCount else simTokens
    .ok (⟨(st : Int), (seq1.length : Int)⟩, paramCount)

/-- The descent loop of `Drain.treeSearch`: walk down by token, falling back
to the wildcard child keyed by the token's classifier label; `none` means the
Go function returned nil. -/
def searchLoop (pp : List (String × GoRegex)) (maxNodeDepth tokenCount : Nat) :
    List String → Nat → Node → Option Node
  | [], _, node => some node
  | token :: rest, depth, node =>
    if maxNodeDepth ≤ depth then some node
    else if depth = tokenCount then some node
    else
      match lookupChild node.keyToChildNode token with
      | some child => searchLoop pp maxNodeDepth tokenCount rest (depth + 1) child
      | none =>
        match lookupChild node.keyToChildNode (getParamString pp token) with
        | some child => searchLoop pp maxNodeDepth tokenCount rest (depth + 1) child
        | none => none

/-- The loop of `Drain.fastMatch`: scan candidate ids, looking each cluster
up with the (touching) `ClusterCache.Get`, tracking the best
`(sim desc, paramCount desc)` candidate.  Accumulators start at `-1`. -/
def fastLoop (pp : List (String × GoRegex)) (tokens : List String) (includeParams : Bool) :
    List Nat → GoFloat → Int → Option Cluster → ClusterCache →
    Except Unit (GoFloat × Int × Option Cluster × ClusterCache)
  | [], maxSim, maxParamCount, maxCluster, cache =>
    .ok (maxSim, maxParamCount, maxCluster, cache)
  | cid :: rest, maxSim, maxParamCount, maxCluster, cache =>
    match cache.Get cid with
    | (none, cache') => fastLoop pp tokens includeParams rest maxSim maxParamCount maxCluster cache'
    | (some cluster, cache') =>
      match getSeqDistance pp cluster.tokens tokens includeParams with
      | .error e => .error e
      | .ok (curSim, paramCount) =>
        if maxSim.blt curSim || (curSim.beq maxSim && decide (maxParamCount < (paramCount : Int))) then
          fastLoop pp tokens includeParams rest curSim (paramCount : Int) (some cluster) cache'
        else
          fastLoop pp tokens includeParams rest maxSim maxParamCount maxCluster cache'

/-- `Drain.fastMatch` from drain.go: return the best candidate if its
similarity reaches `simTh`, else none. -/
def fastMatch (pp : List (String × GoRegex)) (clusterIDs : List Nat) (tokens : List String)
    (simTh : GoFloat) (includeParams : Bool) (cache : ClusterCache) :
    Except Unit (Option Cluster × ClusterCache) :=
  match fastLoop pp tokens includeParams clusterIDs ⟨-1, 1⟩ (-1) none cache with
  | .error e => .error e
  | .ok (maxSim, _, maxCluster, cache') =>
    .ok (if simTh.ble maxSim then maxCluster else none, cache')

/-- `Drain.treeSearch` from drain.go.  The zero-token group returns the first
cluster id of the bucket (Go indexes `clusterIDs[0]`, a panic when empty) via
a touching `Get`. -/
def treeSearch (cfg : Config) (rootNode : Node) (tokens : List String)
    (simTh : GoFloat) (includeParams : Bool) (cache : ClusterCache) :
    Except Unit (Option Cluster × ClusterCache) :=
  let tokenCount := tokens.length
  match lookupChild rootNode.keyToChildNode (toString tokenCount) with
  | none => .ok (none, cache)
  | some curNode =>
    if tokenCount = 0 then
      match curNode.clusterIDs.head? with
      | none => .error ()
      | some cid =>
        match cache.Get cid with
        | (c, cache') => .ok (c, cache')
    else
      match searchLoop cfg.ParamPatterns cfg.maxNodeDepth tokenCount tokens 1 curNode with
      | none => .ok (none, cache)
      | some leaf => fastMatch cfg.ParamPatterns leaf.clusterIDs tokens simTh includeParams cache

/-- The stale-cluster pruning of the terminal write in `addSeqToPrefixTree`:
keep ids still resolvable via the (touching) `ClusterCache.Get`. -/
def pruneIDs : List Nat → ClusterCache → List Nat × ClusterCache
  | [], cache => ([], cache)
  | cid :: rest, cache =>
    match cache.Get cid with
    | (r, cache') =>
      match pruneIDs rest cache' with
      | (ids, cache'') =>
        match r with
        | some _ => (cid :: ids, cache'')
        | none => (ids, cache'')

/-- The descent loop of `Drain.addSeqToPrefixTree` below the first-layer
(token-count) node.  `n` is the full token count, `cid` the new cluster's id.
The final `else` of the digit-free / no-wildcard case descends into
`keyToChildNode[paramString]` without checking presence; when that child is
absent Go stores a nil pointer and dereferences it on the next iteration —
modelled as `.error ()`. -/
def insertLoop (cfg : Config) (n cid : Nat) :
    List String → Nat → Node → ClusterCache → Except Unit (Node × ClusterCache)
  | [], _, node, cache => .ok (node, cache)
  | token :: rest, depth, node, cache =>
    if cfg.maxNodeDepth ≤ depth ∨ n ≤ depth then
      match pruneIDs node.clusterIDs cache with
      | (ids, cache') => .ok (.mk node.keyToChildNode (ids ++ [cid]), cache')
    else
      match lookupChild node.keyToChildNode token with
      | some child =>
        match insertLoop cfg n cid rest (depth + 1) child cache with
        | .error e => .error e
        | .ok (child', cache') =>
          .ok (.mk (setChild node.keyToChildNode token child') node.clusterIDs, cache')
      | none =>
        let paramString := getParamString cfg.ParamPatterns token
        if ¬ hasNumbers token then
          match lookupChild node.keyToChildNode paramString with
          | some wchild =>
            if node.keyToChildNode.length < cfg.MaxChildren then
              match insertLoop cfg n cid rest (depth + 1) createNode cache with
              | .error e => .error e
              | .ok (child', cache') =>
                .ok (.mk (setChild node.keyToChildNode token child') node.clusterIDs, cache')
            else
              match insertLoop cfg n cid rest (depth + 1) wchild cache with
              | .error e => .error e
              | .ok (child', cache') =>
                .ok (.mk (setChild node.keyToChildNode paramString child') node.clusterIDs, cache')
          | none =>
            if node.keyToChildNode.length + 1 < cfg.MaxChildren then
              match insertLoop cfg n cid rest (depth + 1) createNode cache with
              | .error e => .error e
              | .ok (child', cache') =>
                .ok (.mk (setChild node.keyToChildNode token child') node.clusterIDs, cache')
            else if node.keyToChildNode.length + 1 = cfg.MaxChildren then
              match insertLoop cfg n cid rest (depth + 1) createNode cache with
              | .error e => .error e
              | .ok (child', cache') =>
                .ok (.mk (setChild node.keyToChildNode paramString child') node.clusterIDs, cache')
            else
              match lookupChild node.keyToChildNode paramString with
              | some wchild =>
                match insertLoop cfg n cid rest (depth + 1) wchild cache with
                | .error e => .error e
                | .ok (child', cache') =>
                  .ok (.mk (setChild node.keyToChildNode paramString child') node.clusterIDs, cache')
              | none => .error ()
        else
          match lookupChild node.keyToChildNode paramString with
          | none =>
            match insertLoop cfg n cid rest (depth + 1) createNode cache with
            | .error e => .error e
            | .ok (child', cache') =>
              .ok (.mk (setChild node.keyToChildNode paramString child') node.clusterIDs, cache')
          | some wchild =>
            match insertLoop cfg n cid rest (depth + 1) wchild cache with
            | .error e => .error e
            | .ok (child', cache') =>
              .ok (.mk (setChild node.keyToChildNode paramString child') node.clusterIDs, cache')

/-- `Drain.addSeqToPrefixTree` from drain.go: obtain or create the
first-layer node keyed by the decimal token count, then run the descent. -/
def addSeqToPrefixTree (cfg : Config) (rootNode : Node) (cluster : Cluster)
    (cache : ClusterCache) : Except Unit (Node × ClusterCache) :=
  let tokenCount := cluster.tokens.length
  let tokenCountStr := toString tokenCount
  let firstLayerNode := (lookupChild rootNode.keyToChildNode tokenCountStr).getD createNode
  if tokenCount = 0 then
    let fl' : Node := .mk firstLayerNode.keyToChildNode (firstLayerNode.clusterIDs ++ [cluster.id])
    .ok (.mk (setChild rootNode.keyToChildNode tokenCountStr fl') rootNode.clusterIDs, cache)
  else
    match insertLoop cfg tokenCount cluster.id cluster.tokens 1 firstLayerNode cache with
    | .error e => .error e
    | .ok (fl', cache') =>
      .ok (.mk (setChild rootNode.keyToChildNode tokenCountStr fl') rootNode.clusterIDs, cache')

/-- The body of `createTemplate`'s loop at index `i`: overwrite position `i`
with `getParamString(source[i])` when `source[i] != target[i]`. -/
def ctStep (pp : List (String × GoRegex)) (source target : List String)
    (acc : List String) (i : Nat) : List String :=
  if source.getD i "" ≠ target.getD i "" then
    acc.set i (getParamString pp (source.getD i ""))
  else acc

/-- `Drain.createTemplate` from drain.go: copy `target`, then at every index
where `source` and `target` differ overwrite with
`getParamString(source[i])` — the classifier is applied to the INCOMING
token.  Panics (error) on length mismatch. -/
def createTemplate (pp : List (String × GoRegex)) (source target : List String) :
    Except Unit (List String) :=
  if source.length ≠ target.length then .error ()
  else .ok ((List.range source.length).foldl (ctStep pp source target) target)

/-- `Drain` from drain.go. -/
structure Drain where
  config : Config
  rootNode : Node
  idToCluster : ClusterCache
  clustersCounter : Nat

/-- `New` from drain.go: panics (error) when `ClusterDepth < 3`; derives
`maxNodeDepth = ClusterDepth - 2`. -/
def Drain.new (config : Config) : Except Unit Drain :=
  if config.ClusterDepth < 3 then .error ()
  else
    .ok { config := { config with maxNodeDepth := config.ClusterDepth - 2 },
          rootNode := createNode,
          idToCluster := createClusterCache config.MaxClusters,
          clustersCounter := 0 }

/-- `Drain.Clusters` from drain.go. -/
def Drain.Clusters (d : Drain) : List Cluster :=
  d.idToCluster.Values

/-- `Drain.Train` from drain.go.  On a miss: allocate the next id, cache the
new cluster, insert it into the tree.  On a hit: rebuild the template,
increment the size (mutation through the Go pointer), then touch the cluster
with a recency-updating `Get`. -/
def Drain.Train (d : Drain) (content : String) : Except Unit (Cluster × Drain) :=
  let contentTokens := d.config.Tokenizer content
  match treeSearch d.config d.rootNode contentTokens d.config.SimTh false d.idToCluster with
  | .error e => .error e
  | .ok (none, cache1) =>
    let clusterID := d.clustersCounter + 1
    let matchCluster : Cluster := ⟨contentTokens, clusterID, 1⟩
    let cache2 := cache1.Set clusterID matchCluster
    match addSeqToPrefixTree d.config d.rootNode matchCluster cache2 with
    | .error e => .error e
    | .ok (root', cache3) =>
      .ok (matchCluster,
           { d with rootNode := root', idToCluster := cache3, clustersCounter := clusterID })
  | .ok (some matchCluster, cache1) =>
    match createTemplate d.config.ParamPatterns contentTokens matchCluster.tokens with
    | .error e => .error e
    | .ok newTemplateTokens =>
      let updated : Cluster := ⟨newTemplateTokens, matchCluster.id, matchCluster.size + 1⟩
      let cache2 := cache1.mutate matchCluster.id (fun _ => updated)
      match cache2.Get matchCluster.id with
      | (_, cache3) => .ok (updated, { d with idToCluster := cache3 })

/-- `Drain.Match` from drain.go: `treeSearch` with `simTh = 1.0` and
`includeParams = true`.  The tree is untouched, but the cache threads through
`treeSearch` (whose candidate lookups use the touching `Get`). -/
def Drain.Match (d : Drain) (content : String) : Except Unit (Option Cluster × Drain) :=
  let contentTokens := d.config.Tokenizer content
  match treeSearch d.config d.rootNode contentTokens ⟨1, 1⟩ true d.idToCluster with
  | .error e => .error e
  | .ok (c, cache') => .ok (c, { d with idToCluster := cache' })

/-- The `*` ↦ `.*` pattern of `DefaultConfig`: `.*` matches every string
(every string has some substring, e.g. the empty one, in its language). -/
def matchAllRegex : GoRegex := ⟨fun _ => true⟩

/-- `DefaultConfig` from drain.go (`0.4` is modelled as the exact `2/5`;
`maxNodeDepth` is the Go zero value until `New` sets it). -/
def DefaultConfig : Config :=
  { maxNodeDepth := 0, ClusterDepth := 4, SimTh := ⟨2, 5⟩, MaxChildren := 100,
    MaxClusters := 0, ParamPatterns := [("*", matchAllRegex)],
    Tokenizer := SpaceTokenizer }

/-- Construct a learner from `cfg` and feed it `lines` through `Train`,
propagating panics. -/
def run0 (cfg : Config) (lines : List String) : Except Unit Drain :=
  (Drain.new cfg).bind (fun d =>
    lines.foldlM (fun st line => (st.Train line).map (fun r => r.2)) d)

/-! ### Concrete pattern languages used by the claim analyses

Each models the full-match language of a concrete pattern a caller can pass
through `NewConfig` (the repository's README uses patterns of exactly these
shapes). -/

/-- Full-match language of `^[a-zA-Z]+$`: nonempty, all alphabetic. -/
def alphaRegex : GoRegex := ⟨fun l => decide (l ≠ [] ∧ l.all Char.isAlpha)⟩

/-- Full-match language of `^[0-9]+$`: nonempty, all decimal digits. -/
def digitsRegex : GoRegex := ⟨fun l => decide (l ≠ [] ∧ l.all Char.isDigit)⟩

/-- Full-match language of `^[a-zA-Z0-9]+$`: nonempty, alphanumeric. -/
def alnumRegex : GoRegex := ⟨fun l => decide (l ≠ [] ∧ l.all Char.isAlphanum)⟩

/-- Full-match language of the unanchored literal pattern `bc`. -/
def bcRegex : GoRegex := ⟨fun l => decide (l = ['b', 'c'])⟩

/-- Full-match language of the literal pattern `!`. -/
def bangRegex : GoRegex := ⟨fun l => decide (l = ['!'])⟩

/-- Default configuration with a single `{name}` pattern (README shape). -/
def nameConfig : Config :=
  { DefaultConfig with ParamPatterns := [("{name}", alphaRegex)] }

/-- Default configuration with the fan-out cap lowered to 2. -/
def smallFanConfig : Config := { DefaultConfig with MaxChildren := 2 }

/-- Fan-out cap 2 with two pattern labels whose languages are disjoint. -/
def twoLabelConfig : Config :=
  { DefaultConfig with
    MaxChildren := 2
    ParamPatterns := [("{num}", digitsRegex), ("{pun}", bangRegex)] }

/-! ### Spec-side definitions used for refinement comparisons -/

/-- Modelled from the spec (§4.1 / C5): "the classifier reports the first
label whose regex fully matches" — anchored match of the whole token, to be
compared with `getParamString`, which uses Go's substring `MatchString`. -/
def getParamStringFull (pp : List (String × GoRegex)) (token : String) : String :=
  match pp.find? (fun p => p.2.fullMatch token.data) with
  | some p => p.1
  | none => ""

/-- Modelled from the spec (§4.3 / C3): the claimed template rule
`T'[i] = T[i] if T[i] == S[i] else classifier(T[i])`, classifying the OLD
template token (`target`) at a mismatch, to be compared with
`createTemplate`, which classifies the incoming token (`source`). -/
def createTemplateSpec (pp : List (String × GoRegex)) (source target : List String) :
    Except Unit (List String) :=
  if source.length ≠ target.length then .error ()
  else .ok (List.zipWith (fun s t => if s = t then t else getParamString pp t) source target)

/-- The spec's `sim_tokens` (§4.3 / C4): positions whose template token is
not a configured placeholder label and equals the incoming token. -/
def simTokensSpec (pp : List (String × GoRegex)) (seq1 seq2 : List String) : Nat :=
  (seq1.zip seq2).countP (fun p => !isParamKey pp p.1 && p.1 == p.2)

/-- The spec's `param_count` (§4.3 / C4): positions whose template token is a
configured placeholder label. -/
def paramCountSpec (pp : List (String × GoRegex)) (seq1 : List String) : Nat :=
  seq1.countP (fun t => isParamKey pp t)

/-! ### Basic lemmas about the tokenizer -/

theorem splitOnChar_ne_nil (sep : Char) (l : List Char) : splitOnChar sep l ≠ [] := by
  induction l with
  | nil => simp [splitOnChar]
  | cons c rest ih =>
    simp only [splitOnChar]
    split
    · simp
    · split
      · simp
      · simp

theorem SpaceTokenizer_ne_nil (s : String) : SpaceTokenizer s ≠ [] := by
  unfold SpaceTokenizer
  intro h
  exact splitOnChar_ne_nil ' ' (trimSpaceChars s.data) (List.map_eq_nil_iff.mp h)

theorem trimSpaceChars_all_space (l : List Char) (h : l.all goIsSpace = true) :
    trimSpaceChars l = [] := by
  have h1 : l.dropWhile goIsSpace = [] := by
    rw [List.dropWhile_eq_nil_iff]
    intro x hx
    exact List.all_eq_true.mp h x hx
  simp [trimSpaceChars, h1]

/-- C10: on a whitespace-only input (including the empty string) the built-in
`SpaceTokenizer` trims everything and `strings.Split` of the empty string
yields the one-element list `[""]`; moreover `SpaceTokenizer` never returns a
zero-length sequence, so the zero-token paths of search and insertion are
reachable only through a caller-supplied tokenizer. -/
theorem c10_space_tokenizer (s : String) :
    (s.data.all goIsSpace = true → SpaceTokenizer s = [""]) ∧
    1 ≤ (SpaceTokenizer s).length := by
  constructor
  · intro h
    simp [SpaceTokenizer, trimSpaceChars_all_space s.data h, splitOnChar]
  · exact List.length_pos.mpr (SpaceTokenizer_ne_nil s)

/-- Witness for C10 at the concrete whitespace-only input `" "`. -/
theorem c10_space_tokenizer_witness :
    SpaceTokenizer " " = [""] ∧ 1 ≤ (SpaceTokenizer " ").length :=
  ⟨(c10_space_tokenizer " ").1 (by decide), (c10_space_tokenizer " ").2⟩

/-! ### Counting lemmas for the similarity computation -/

theorem simCounts_eq_countP (pp : List (String × GoRegex)) (l : List (String × String)) :
    simCounts pp l =
      (l.countP (fun p => !isParamKey pp p.1 && p.1 == p.2),
       l.countP (fun p => isParamKey pp p.1)) := by
  induction l with
  | nil => simp [simCounts]
  | cons hd tl ih =>
    obtain ⟨t1, t2⟩ := hd
    simp only [simCounts, ih]
    by_cases hp : isParamKey pp t1
    · simp [List.countP_cons, hp]
    · by_cases he : t1 = t2
      · subst he
        simp [List.countP_cons, hp]
      · simp [List.countP_cons, hp, he]

theorem countP_zip_fst (q : String → Bool) :
    ∀ s1 s2 : List String, s1.length = s2.length →
      (s1.zip s2).countP (fun p => q p.1) = s1.countP q := by
  intro s1
  induction s1 with
  | nil => intro s2 h; simp
  | cons a s1 ih =>
    intro s2 h
    cases s2 with
    | nil => simp at h
    | cons b s2 =>
      simp only [List.zip_cons_cons, List.countP_cons, ih s2 (by simpa using h)]

/-- C4: on equal-length sequences `getSeqDistance` returns exactly the spec's
formula: `paramCount` counts template positions that are configured labels,
`sim_tokens` counts non-label literal-equal positions, `param_count` is added
when include-params is requested, and the similarity value is that count
divided by the length. -/
theorem c4_similarity_formula (pp : List (String × GoRegex)) (seq1 seq2 : List String)
    (ip : Bool) (h : seq1.length = seq2.length) :
    getSeqDistance pp seq1 seq2 ip =
      .ok (⟨((simTokensSpec pp seq1 seq2 + if ip then paramCountSpec pp seq1 else 0 : Nat) : Int),
            (seq1.length : Int)⟩, paramCountSpec pp seq1) ∧
    (⟨((simTokensSpec pp seq1 seq2 + if ip then paramCountSpec pp seq1 else 0 : Nat) : Int),
      (seq1.length : Int)⟩ : GoFloat).toRat =
      ((simTokensSpec pp seq1 seq2 + if ip then paramCountSpec pp seq1 else 0 : Nat) : ℚ) /
        (seq1.length : ℚ) := by
  refine ⟨?_, by push_cast [GoFloat.toRat]; ring_nf⟩
  simp only [getSeqDistance, h, ne_eq, not_true_eq_false, ite_false,
    simCounts_eq_countP]
  rw [countP_zip_fst (fun t => isParamKey pp t) seq1 seq2 h]
  simp only [simTokensSpec, paramCountSpec]
  cases ip <;> simp

/-- Witness for C4 at `seq1 = ["a", "{name}"]`, `seq2 = ["a", "b"]`,
include-params on. -/
theorem c4_similarity_formula_witness :
    getSeqDistance nameConfig.ParamPatterns ["a", "{name}"] ["a", "b"] true =
      .ok (⟨((simTokensSpec nameConfig.ParamPatterns ["a", "{name}"] ["a", "b"] +
              if true then paramCountSpec nameConfig.ParamPatterns ["a", "{name}"] else 0 : Nat) : Int),
            ((["a", "{name}"] : List String).length : Int)⟩,
           paramCountSpec nameConfig.ParamPatterns ["a", "{name}"]) ∧
    (⟨((simTokensSpec nameConfig.ParamPatterns ["a", "{name}"] ["a", "b"] +
        if true then paramCountSpec nameConfig.ParamPatterns ["a", "{name}"] else 0 : Nat) : Int),
      ((["a", "{name}"] : List String).length : Int)⟩ : GoFloat).toRat =
      ((simTokensSpec nameConfig.ParamPatterns ["a", "{name}"] ["a", "b"] +
        if true then paramCountSpec nameConfig.ParamPatterns ["a", "{name}"] else 0 : Nat) : ℚ) /
        ((["a", "{name}"] : List String).length : ℚ) :=
  c4_similarity_formula nameConfig.ParamPatterns ["a", "{name}"] ["a", "b"] true (by decide)

/-! ### Closed counterexample and bug-exhibiting theorems -/

/-- C2 (refuting the claimed purity of `Match`): after training three lines
(two clusters sharing one leaf, cluster 1 most recently used), `Match`
succeeds but reorders the LRU: `ClusterCache.Get` — used by `fastMatch` for
candidate scoring — moves every scanned candidate to the front, leaving
cluster 2 most recent.  The entry lists before and after differ. -/
theorem c2_match_reorders_lru :
    ((run0 DefaultConfig ["x a b c d", "x 1 2 3 4", "x a b c d"]).bind
      (fun d => (d.Match "x a b c d").map
        (fun r => (r.1, d.idToCluster.entries, r.2.idToCluster.entries))) =
      .ok (some ⟨["x", "a", "b", "c", "d"], 1, 2⟩,
           [(1, ⟨["x", "a", "b", "c", "d"], 1, 2⟩), (2, ⟨["x", "1", "2", "3", "4"], 2, 1⟩)],
           [(2, ⟨["x", "1", "2", "3", "4"], 2, 1⟩), (1, ⟨["x", "a", "b", "c", "d"], 1, 2⟩)])) ∧
    ([(1, (⟨["x", "a", "b", "c", "d"], 1, 2⟩ : Cluster)), (2, ⟨["x", "1", "2", "3", "4"], 2, 1⟩)] ≠
     [(2, (⟨["x", "1", "2", "3", "4"], 2, 1⟩ : Cluster)), (1, ⟨["x", "a", "b", "c", "d"], 1, 2⟩)]) :=
  ⟨rfl, by decide⟩

/-- C3 counterexample: after training `"x y abc"` then `"x y 123"` under a
`{name}` (all-alphabetic) pattern, the stored template is `["x","y",""]` —
the code classified the INCOMING token `"123"` (no label matches) — whereas
the claim's rule classifies the OLD template token `"abc"` and predicts
`["x","y","{name}"]`. -/
theorem c3_counterexample :
    (run0 nameConfig ["x y abc", "x y 123"]).map (fun d => d.Clusters) =
      .ok [⟨["x", "y", ""], 1, 2⟩] ∧
    createTemplateSpec nameConfig.ParamPatterns ["x", "y", "123"] ["x", "y", "abc"] =
      .ok ["x", "y", "{name}"] ∧
    (["x", "y", ""] : List String) ≠ ["x", "y", "{name}"] :=
  ⟨rfl, rfl, by decide⟩

/-- C5 counterexample: with the unanchored literal pattern `bc`, the token
`"abc"` contains a match but is not fully matched, yet `getParamString`
(which uses Go's substring `MatchString`) reports the label, while the
spec-modelled full-match classifier reports the empty sentinel. -/
theorem c5_counterexample :
    getParamString [("{lit}", bcRegex)] "abc" = "{lit}" ∧
    getParamStringFull [("{lit}", bcRegex)] "abc" = "" ∧
    bcRegex.fullMatch "abc".data = false :=
  ⟨rfl, rfl, rfl⟩

/-- Two iteration orders of the same label→regex map (Go's `range` order over
a map is unspecified and varies between loops within one process run). -/
def ppOrderA : List (String × GoRegex) := [("{alpha}", alphaRegex), ("{alnum}", alnumRegex)]

/-- C6 (refuting in-process determinism): the two orders hold the same pairs
(they are permutations of each other), both regexes accept `"ab"`, and
`getParamString` — which takes whatever order Go's map range produces —
returns a different label under each order. -/
theorem c6_classifier_order_dependent :
    ppOrderA.reverse.Perm ppOrderA ∧
    getParamString ppOrderA "ab" = "{alpha}" ∧
    getParamString ppOrderA.reverse "ab" = "{alnum}" ∧
    ("{alpha}" : String) ≠ "{alnum}" :=
  ⟨List.reverse_perm ppOrderA, rfl, rfl, by decide⟩

/-- C7 counterexample: with `MaxChildren = 2`, training three lines of
distinct token counts gives the root three first-level children — the root's
fan-out is never capped by the insertion rules. -/
theorem c7_counterexample :
    (run0 smallFanConfig ["a", "b c", "d e f"]).map
      (fun d => d.rootNode.keyToChildNode.length) = .ok 3 ∧
    smallFanConfig.MaxChildren = 2 ∧ ¬ (3 ≤ 2) :=
  ⟨rfl, rfl, by decide⟩

/-- C8 counterexample: under the default configuration the line `"* * *"`
tokenizes to placeholder labels only, so its self-similarity on the Train
path (include-params off) is `0 < 0.4`; training it twice yields TWO
clusters, not one. -/
theorem c8_counterexample :
    (run0 DefaultConfig (List.replicate 2 "* * *")).map (fun d => d.Clusters.length) =
      .ok 2 ∧ (2 : Nat) ≠ 1 :=
  ⟨rfl, by decide⟩

/-- C9 counterexample: with `MaxChildren = 2` and labels `{num}`/`{pun}`,
training `"a p"`, `"b q"`, `"17 r"` builds a node with three children
(`"a"`, the `""`-wildcard, the `{num}`-wildcard — the digit branch installs
wildcards without a cap check) and no `{pun}` child; training `"! s"` then
takes the `k + 1 > MaxChildren` case with no wildcard for `{pun}` and the
descent dereferences a nonexistent child: the insertion panics. -/
theorem c9_counterexample :
    (run0 twoLabelConfig ["a p", "b q", "17 r"]).isOk = true ∧
    run0 twoLabelConfig ["a p", "b q", "17 r", "! s"] = .error () :=
  ⟨rfl, rfl⟩

/-! ### Substring characterization of `MatchString` and the classifier -/

theorem mem_infixesOf (m l : List Char) :
    m ∈ infixesOf l ↔ ∃ u v, u ++ m ++ v = l := by
  simp only [infixesOf, List.mem_flatMap]
  constructor
  · rintro ⟨w, hw, hm⟩
    obtain ⟨u, hu⟩ := (List.mem_tails w l).mp hw
    obtain ⟨v, hv⟩ := (List.mem_inits m w).mp hm
    exact ⟨u, v, by rw [List.append_assoc, hv, hu]⟩
  · rintro ⟨u, v, h⟩
    refine ⟨m ++ v, (List.mem_tails (m ++ v) l).mpr ⟨u, by rw [← List.append_assoc, h]⟩,
      (List.mem_inits m (m ++ v)).mpr ⟨v, rfl⟩⟩

theorem MatchString_iff (r : GoRegex) (s : String) :
    r.MatchString s = true ↔ ∃ m u v, u ++ m ++ v = s.data ∧ r.fullMatch m = true := by
  simp only [GoRegex.MatchString, List.any_eq_true]
  constructor
  · rintro ⟨m, hm, hf⟩
    obtain ⟨u, v, h⟩ := (mem_infixesOf m s.data).mp hm
    exact ⟨m, u, v, h, hf⟩
  · rintro ⟨m, u, v, h, hf⟩
    exact ⟨m, (mem_infixesOf m s.data).mpr ⟨u, v, h⟩, hf⟩

theorem find?_split {α : Type} (p : α → Bool) :
    ∀ (l : List α) (a : α), l.find? p = some a →
      ∃ l1 l2, l = l1 ++ a :: l2 ∧ (∀ x ∈ l1, p x = false) ∧ p a = true := by
  intro l
  induction l with
  | nil => intro a h; simp [List.find?] at h
  | cons hd tl ih =>
    intro a h
    by_cases hp : p hd
    · rw [List.find?_cons_of_pos _ hp] at h
      cases h
      exact ⟨[], tl, rfl, by simp, hp⟩
    · rw [List.find?_cons_of_neg _ (by simpa using hp)] at h
      obtain ⟨l1, l2, heq, hall, hpa⟩ := ih a h
      refine ⟨hd :: l1, l2, by rw [heq]; rfl, ?_, hpa⟩
      intro x hx
      rcases List.mem_cons.mp hx with rfl | hx
      · simpa using hp
      · exact hall x hx

/-- C5 (amended): `getParamString` returns the first configured label whose
regex matches SOME contiguous substring of the token (Go's unanchored
`MatchString`), not necessarily the whole token, and returns the empty
sentinel exactly when no configured regex matches any substring. -/
theorem c5_amended (pp : List (String × GoRegex)) (token : String) :
    (getParamString pp token = "" ∧
      ∀ p ∈ pp, ∀ m u v, u ++ m ++ v = token.data → p.2.fullMatch m = false) ∨
    (∃ pre l r post, pp = pre ++ (l, r) :: post ∧
      (∀ p ∈ pre, ∀ m u v, u ++ m ++ v = token.data → p.2.fullMatch m = false) ∧
      (∃ m u v, u ++ m ++ v = token.data ∧ r.fullMatch m = true) ∧
      getParamString pp token = l) := by
  cases h : pp.find? (fun p => p.2.MatchString token) with
  | none =>
    left
    refine ⟨by simp [getParamString, h], ?_⟩
    intro p hp m u v huv
    have hnm := List.find?_eq_none.mp h p hp
    by_contra hf
    exact hnm ((MatchString_iff p.2 token).mpr
      ⟨m, u, v, huv, Bool.not_eq_false _ ▸ hf⟩)
  | some q =>
    right
    obtain ⟨l1, l2, heq, hall, hq⟩ := find?_split _ pp q h
    obtain ⟨m, u, v, huv, hf⟩ := (MatchString_iff q.2 token).mp hq
    refine ⟨l1, q.1, q.2, l2, by rw [heq], ?_, ⟨m, u, v, huv, hf⟩,
      by simp [getParamString, h]⟩
    intro p hp m' u' v' huv'
    by_contra hf'
    have : p.2.MatchString token = true :=
      (MatchString_iff p.2 token).mpr ⟨m', u', v', huv', Bool.not_eq_false _ ▸ hf'⟩
    rw [hall p hp] at this
    exact Bool.false_ne_true this

/-! ### Positional characterization of `createTemplate` -/

theorem ctFold_length (pp : List (String × GoRegex)) (source target : List String) :
    ∀ (js : List Nat) (acc : List String),
      (js.foldl (ctStep pp source target) acc).length = acc.length := by
  intro js
  induction js with
  | nil => intro acc; rfl
  | cons j js ih =>
    intro acc
    rw [List.foldl_cons, ih]
    unfold ctStep
    split <;> simp

theorem getD_set_ne {α : Type} (l : List α) (i j : Nat) (v d : α) (h : i ≠ j) :
    (l.set i v).getD j d = l.getD j d := by
  simp [List.getD, List.getElem?_set_ne h]

theorem getD_set_self {α : Type} (l : List α) (i : Nat) (v d : α) (h : i < l.length) :
    (l.set i v).getD i d = v := by
  simp [List.getD, List.getElem?_set_self, h]

theorem ctStep_of_eq (pp : List (String × GoRegex)) (source target acc : List String)
    (i : Nat) (h : source.getD i "" = target.getD i "") :
    ctStep pp source target acc i = acc := by
  unfold ctStep
  rw [if_neg (not_not_intro h)]

theorem ctStep_of_ne (pp : List (String × GoRegex)) (source target acc : List String)
    (i : Nat) (h : ¬ source.getD i "" = target.getD i "") :
    ctStep pp source target acc i = acc.set i (getParamString pp (source.getD i "")) := by
  unfold ctStep
  rw [if_pos h]

theorem ctFold_getD (pp : List (String × GoRegex)) (source target : List String) :
    ∀ n, n ≤ target.length → ∀ i,
      ((List.range n).foldl (ctStep pp source target) target).getD i "" =
        if i < n then
          (if source.getD i "" = target.getD i "" then target.getD i ""
           else getParamString pp (source.getD i ""))
        else target.getD i "" := by
  intro n
  induction n with
  | zero => intro _ i; simp
  | succ n ih =>
    intro hn i
    rw [List.range_succ, List.foldl_append, List.foldl_cons, List.foldl_nil]
    have hn' : n ≤ target.length := Nat.le_of_succ_le hn
    have hlen : ((List.range n).foldl (ctStep pp source target) target).length =
        target.length := ctFold_length pp source target _ _
    by_cases hs : source.getD n "" = target.getD n ""
    · rw [ctStep_of_eq pp source target _ n hs]
      by_cases hi2 : i < n + 1
      · by_cases hin : i < n
        · rw [ih hn' i, if_pos hin, if_pos hi2]
        · have hieq : i = n := by omega
          subst hieq
          rw [ih hn' i, if_neg (by omega), if_pos hi2, if_pos hs]
      · rw [ih hn' i, if_neg (by omega), if_neg hi2]
    · rw [ctStep_of_ne pp source target _ n hs]
      by_cases hi2 : i < n + 1
      · by_cases hin : i < n
        · rw [getD_set_ne _ n i _ _ (by omega), ih hn' i, if_pos hin, if_pos hi2]
        · have hieq : i = n := by omega
          subst hieq
          rw [getD_set_self _ i _ _ (by omega), if_pos hi2, if_neg hs]
      · rw [getD_set_ne _ n i _ _ (by omega), ih hn' i, if_neg (by omega), if_neg hi2]

/-- C3 (amended): equal positions of the template are preserved, and at every
mismatching position the new template holds the classifier applied to the
INCOMING token `source[i]` (`createTemplate(contentTokens, template)` is
called with the incoming tokens as `source`) — not to the old template token. -/
theorem c3_amended (pp : List (String × GoRegex)) (source target : List String)
    (h : source.length = target.length) (r : List String)
    (hr : createTemplate pp source target = .ok r) (i : Nat) (hi : i < source.length) :
    r.getD i "" = if source.getD i "" = target.getD i "" then target.getD i ""
                  else getParamString pp (source.getD i "") := by
  unfold createTemplate at hr
  rw [if_neg (by simp [h])] at hr
  cases hr
  rw [ctFold_getD pp source target source.length (by omega) i, if_pos hi]

/-- Witness for C3 (amended) at `source = ["a","1"]`, `target = ["a","b"]`,
mismatch position 1. -/
theorem c3_amended_witness :
    (["a", ""] : List String).getD 1 "" =
      if (["a", "1"] : List String).getD 1 "" = (["a", "b"] : List String).getD 1 "" then
        (["a", "b"] : List String).getD 1 ""
      else getParamString nameConfig.ParamPatterns ((["a", "1"] : List String).getD 1 "") :=
  c3_amended nameConfig.ParamPatterns ["a", "1"] ["a", "b"] (by decide) ["a", ""] (by rfl)
    1 (by decide)

/-! ### Bounds on the similarity counts -/

theorem countP_sim_param_le (pp : List (String × GoRegex)) (l : List (String × String)) :
    l.countP (fun p => !isParamKey pp p.1 && p.1 == p.2) +
      l.countP (fun p => isParamKey pp p.1) ≤ l.length := by
  induction l with
  | nil => simp
  | cons hd tl ih =>
    simp only [List.countP_cons, List.length_cons]
    by_cases hp : isParamKey pp hd.1
    · simp [hp]
      omega
    · by_cases he : hd.1 == hd.2
      · simp [hp, he]
        omega
      · simp [hp, he]
        omega

theorem countP_sim_param_eq (pp : List (String × GoRegex)) :
    ∀ l : List (String × String),
      l.countP (fun p => !isParamKey pp p.1 && p.1 == p.2) +
        l.countP (fun p => isParamKey pp p.1) = l.length →
      ∀ p ∈ l, isParamKey pp p.1 = true ∨ p.1 = p.2 := by
  intro l
  induction l with
  | nil => simp
  | cons hd tl ih =>
    intro h p hp
    simp only [List.countP_cons, List.length_cons] at h
    by_cases hhp : isParamKey pp hd.1
    · have htl : tl.countP (fun p => !isParamKey pp p.1 && p.1 == p.2) +
          tl.countP (fun p => isParamKey pp p.1) = tl.length := by
        simp [hhp] at h
        omega
      rcases List.mem_cons.mp hp with rfl | hmem
      · exact Or.inl hhp
      · exact ih htl p hmem
    · by_cases hhe : hd.1 == hd.2
      · have htl : tl.countP (fun p => !isParamKey pp p.1 && p.1 == p.2) +
            tl.countP (fun p => isParamKey pp p.1) = tl.length := by
          simp [hhp, hhe] at h
          omega
        rcases List.mem_cons.mp hp with rfl | hmem
        · exact Or.inr (by simpa using hhe)
        · exact ih htl p hmem
      · exfalso
        have hle := countP_sim_param_le pp tl
        simp [hhp, hhe] at h
        omega

/-- Facts extracted from a successful include-params similarity computation:
the sequences have equal length, the similarity is a fraction `st / len` with
`st ≤ len`, and `st = len` forces every position to be placeholder-labelled
or literal-equal. -/
theorem getSeqDistance_ok_facts (pp : List (String × GoRegex)) (s1 s2 : List String)
    (sim : GoFloat) (pc : Nat)
    (h : getSeqDistance pp s1 s2 true = .ok (sim, pc)) :
    s1.length = s2.length ∧
    ∃ st : Nat, sim = ⟨(st : Int), (s1.length : Int)⟩ ∧ st ≤ s1.length ∧
      (st = s1.length → ∀ p ∈ s1.zip s2, isParamKey pp p.1 = true ∨ p.1 = p.2) := by
  unfold getSeqDistance at h
  by_cases hl : s1.length = s2.length
  · rw [if_neg (not_not_intro hl)] at h
    rw [simCounts_eq_countP] at h
    simp only [if_true, Except.ok.injEq, Prod.mk.injEq] at h
    obtain ⟨hsim, hpc⟩ := h
    have hzlen : (s1.zip s2).length = s1.length := by
      rw [List.length_zip, hl, Nat.min_self]
    refine ⟨hl, (s1.zip s2).countP (fun p => !isParamKey pp p.1 && p.1 == p.2) +
      (s1.zip s2).countP (fun p => isParamKey pp p.1), hsim.symm, ?_, ?_⟩
    · rw [← hzlen]
      exact countP_sim_param_le pp (s1.zip s2)
    · intro hst
      exact countP_sim_param_eq pp (s1.zip s2) (by omega)
  · rw [if_pos hl] at h
    exact absurd h (by simp)

/-! ### The best-candidate invariant of `fastMatch` -/

theorem fastLoop_tracks (pp : List (String × GoRegex)) (tokens : List String) (ip : Bool) :
    ∀ (ids : List Nat) (ms : GoFloat) (mpc : Int) (mc : Option Cluster)
      (cache : ClusterCache) (ms' : GoFloat) (mpc' : Int) (mc' : Option Cluster)
      (cache' : ClusterCache),
      (∀ c, mc = some c → ∃ pc, getSeqDistance pp c.tokens tokens ip = .ok (ms, pc)) →
      fastLoop pp tokens ip ids ms mpc mc cache = .ok (ms', mpc', mc', cache') →
      ∀ c, mc' = some c → ∃ pc, getSeqDistance pp c.tokens tokens ip = .ok (ms', pc) := by
  intro ids
  induction ids with
  | nil =>
    intro ms mpc mc cache ms' mpc' mc' cache' hinv h
    simp only [fastLoop, Except.ok.injEq, Prod.mk.injEq] at h
    obtain ⟨h1, h2, h3, h4⟩ := h
    subst h1
    subst h3
    exact hinv
  | cons cid rest ih =>
    intro ms mpc mc cache ms' mpc' mc' cache' hinv h
    simp only [fastLoop] at h
    rcases hget : cache.Get cid with ⟨copt, cache1⟩
    rw [hget] at h
    cases copt with
    | none => exact ih ms mpc mc cache1 ms' mpc' mc' cache' hinv h
    | some cluster =>
      simp only at h
      cases hdist : getSeqDistance pp cluster.tokens tokens ip with
      | error e => rw [hdist] at h; exact absurd h (by simp)
      | ok r =>
        obtain ⟨curSim, pcnt⟩ := r
        rw [hdist] at h
        simp only at h
        split at h
        · refine ih curSim (pcnt : Int) (some cluster) cache1 ms' mpc' mc' cache' ?_ h
          intro c hc
          cases hc
          exact ⟨pcnt, hdist⟩
        · exact ih ms mpc mc cache1 ms' mpc' mc' cache' hinv h

/-- A successful `fastMatch` returning a cluster returns one whose similarity
was computed by `getSeqDistance` and clears the threshold. -/
theorem fastMatch_some (pp : List (String × GoRegex)) (ids : List Nat)
    (tokens : List String) (simTh : GoFloat) (ip : Bool) (cache : ClusterCache)
    (c : Cluster) (cache' : ClusterCache)
    (h : fastMatch pp ids tokens simTh ip cache = .ok (some c, cache')) :
    ∃ ms : GoFloat, simTh.ble ms = true ∧
      ∃ pc, getSeqDistance pp c.tokens tokens ip = .ok (ms, pc) := by
  unfold fastMatch at h
  cases hfl : fastLoop pp tokens ip ids ⟨-1, 1⟩ (-1) none cache with
  | error e => rw [hfl] at h; exact absurd h (by simp)
  | ok r =>
    obtain ⟨ms, mpc, mc, cache''⟩ := r
    rw [hfl] at h
    simp only [Except.ok.injEq, Prod.mk.injEq] at h
    obtain ⟨hmc, _⟩ := h
    by_cases hble : simTh.ble ms = true
    · rw [if_pos hble] at hmc
      subst hmc
      refine ⟨ms, hble, ?_⟩
      exact fastLoop_tracks pp tokens ip ids ⟨-1, 1⟩ (-1) none cache ms mpc (some c) cache''
        (by intro c hc; cases hc) hfl c rfl
    · rw [if_neg hble] at hmc
      exact absurd hmc (by simp)

/-- A successful `treeSearch` on a nonempty token list that returns a cluster
got it from `fastMatch` on some leaf bucket. -/
theorem treeSearch_some (cfg : Config) (root : Node) (tokens : List String)
    (simTh : GoFloat) (ip : Bool) (cache : ClusterCache) (c : Cluster)
    (cache' : ClusterCache) (hne : tokens ≠ [])
    (h : treeSearch cfg root tokens simTh ip cache = .ok (some c, cache')) :
    ∃ ids, fastMatch cfg.ParamPatterns ids tokens simTh ip cache = .ok (some c, cache') := by
  simp only [treeSearch] at h
  split at h
  · exact absurd h (by simp)
  · split at h
    · next hzero => exact absurd (List.length_eq_zero.mp hzero) hne
    · split at h
      · exact absurd h (by simp)
      · next leaf hsl => exact ⟨leaf.clusterIDs, h⟩

/-- C1 (amended): when `Match` returns a cluster (on a line whose
tokenization is nonempty), the cluster's template has the same token count
and at EVERY position the template token is either literal-equal to the
input token or is a configured placeholder label — the label's regex is NOT
consulted at leaf scoring, so no regex-acceptance condition holds (see
`c1_counterexample`). -/
theorem c1_amended (d : Drain) (line : String) (c : Cluster) (d' : Drain)
    (hne : d.config.Tokenizer line ≠ [])
    (h : d.Match line = .ok (some c, d')) :
    c.tokens.length = (d.config.Tokenizer line).length ∧
    ∀ p ∈ c.tokens.zip (d.config.Tokenizer line),
      isParamKey d.config.ParamPatterns p.1 = true ∨ p.1 = p.2 := by
  simp only [Drain.Match] at h
  cases hts : treeSearch d.config d.rootNode (d.config.Tokenizer line) ⟨1, 1⟩ true
      d.idToCluster with
  | error e => rw [hts] at h; exact absurd h (by simp)
  | ok r =>
    obtain ⟨copt, cache'⟩ := r
    rw [hts] at h
    simp only [Except.ok.injEq, Prod.mk.injEq] at h
    obtain ⟨hcopt, _⟩ := h
    subst hcopt
    obtain ⟨ids, hfm⟩ := treeSearch_some d.config d.rootNode (d.config.Tokenizer line)
      ⟨1, 1⟩ true d.idToCluster c cache' hne hts
    obtain ⟨ms, hble, pc, hdist⟩ := fastMatch_some d.config.ParamPatterns ids
      (d.config.Tokenizer line) ⟨1, 1⟩ true d.idToCluster c cache' hfm
    obtain ⟨hlen, st, hsim, hle, himpl⟩ := getSeqDistance_ok_facts d.config.ParamPatterns
      c.tokens (d.config.Tokenizer line) ms pc hdist
    subst hsim
    have hcross : (1 : Int) * (c.tokens.length : Int) ≤ (st : Int) * 1 := by
      simpa [GoFloat.ble] using hble
    have hst : st = c.tokens.length := by omega
    exact ⟨hlen, himpl hst⟩

/-- C1 counterexample: after two README-style trainings the template is
`["user","{name}","logged","in"]` with `{name}` = all-alphabetic; `Match` on
`"user ### logged in"` returns that cluster although the `{name}` regex
rejects `"###"` (it does not even match a substring of it). -/
theorem c1_counterexample :
    (run0 nameConfig ["user davidoh logged in", "user eranr logged in"]).bind
      (fun d => (d.Match "user ### logged in").map (fun r => r.1)) =
      .ok (some ⟨["user", "{name}", "logged", "in"], 1, 2⟩) ∧
    alphaRegex.fullMatch "###".data = false ∧
    alphaRegex.MatchString "###" = false :=
  ⟨rfl, rfl, rfl⟩

/-- A tiny concrete state used to instantiate `c1_amended`: one cluster with
the one-token template `["hello"]` sitting in the token-count-1 bucket. -/
def c1wDrain : Drain :=
  { config := { DefaultConfig with maxNodeDepth := 2 },
    rootNode := .mk [(toString 1, .mk [] [1])] [],
    idToCluster := ⟨goMaxInt, [(1, ⟨["hello"], 1, 1⟩)]⟩,
    clustersCounter := 1 }

/-- Witness for C1 (amended) at the concrete state `c1wDrain` and the line
`"hello"`. -/
theorem c1_amended_witness :
    (⟨["hello"], 1, 1⟩ : Cluster).tokens.length = (c1wDrain.config.Tokenizer "hello").length ∧
    ∀ p ∈ (⟨["hello"], 1, 1⟩ : Cluster).tokens.zip (c1wDrain.config.Tokenizer "hello"),
      isParamKey c1wDrain.config.ParamPatterns p.1 = true ∨ p.1 = p.2 :=
  c1_amended c1wDrain "hello" ⟨["hello"], 1, 1⟩ c1wDrain (by decide) (by rfl)

/-! ### Tree height -/

mutual

/-- Number of nodes on the longest downward path starting at (and counting)
this node. -/
def Node.height : Node → Nat
  | .mk cs _ => heightList cs + 1

/-- Maximum `Node.height` over a child list (0 when empty). -/
def heightList : List (String × Node) → Nat
  | [] => 0
  | p :: rest => max (Node.height p.2) (heightList rest)

end

theorem height_mk (cs : List (String × Node)) (ids : List Nat) :
    (Node.mk cs ids).height = heightList cs + 1 := by
  rw [Node.height]

theorem height_createNode : createNode.height = 1 := by
  rw [createNode, height_mk, heightList]

theorem heightList_of_lookup :
    ∀ (cs : List (String × Node)) (k : String) (c : Node),
      lookupChild cs k = some c → c.height ≤ heightList cs := by
  intro cs
  induction cs with
  | nil => intro k c h; simp [lookupChild] at h
  | cons hd tl ih =>
    intro k c h
    unfold lookupChild at h
    by_cases hk : hd.1 = k
    · rw [List.find?_cons_of_pos _ (by simpa using hk)] at h
      simp only [Option.map_some'] at h
      cases h
      rw [heightList]
      exact Nat.le_max_left _ _
    · rw [List.find?_cons_of_neg _ (by simpa using hk)] at h
      rw [heightList]
      exact le_trans (ih k c h) (Nat.le_max_right _ _)

theorem heightList_append_single (cs : List (String × Node)) (k : String) (v : Node) :
    heightList (cs ++ [(k, v)]) = max (heightList cs) v.height := by
  induction cs with
  | nil => simp [heightList]
  | cons hd tl ih =>
    rw [List.cons_append, heightList, ih, heightList]
    omega

theorem heightList_replace (k : String) (v : Node) :
    ∀ cs : List (String × Node),
      heightList (cs.map (fun p => if p.1 = k then (k, v) else p)) ≤
        max (heightList cs) v.height := by
  intro cs
  induction cs with
  | nil => simp [heightList]
  | cons hd tl ih =>
    rw [List.map_cons, heightList, heightList]
    by_cases hk : hd.1 = k
    · rw [if_pos hk]
      simp only
      omega
    · rw [if_neg hk]
      omega

theorem heightList_setChild (cs : List (String × Node)) (k : String) (v : Node) :
    heightList (setChild cs k v) ≤ max (heightList cs) v.height := by
  unfold setChild
  split
  · exact heightList_replace k v cs
  · exact le_of_eq (heightList_append_single cs k v)

theorem heightList_le_of_forall (cs : List (String × Node)) (b : Nat)
    (h : ∀ p ∈ cs, (p.2 : Node).height ≤ b) : heightList cs ≤ b := by
  induction cs with
  | nil => rw [heightList]; omega
  | cons hd tl ih =>
    rw [heightList]
    have h1 := h hd (by simp)
    have h2 := ih (fun p hp => h p (by simp [hp]))
    omega

theorem mem_setChild (cs : List (String × Node)) (k : String) (v : Node)
    (p : String × Node) (hp : p ∈ setChild cs k v) : p = (k, v) ∨ p ∈ cs := by
  unfold setChild at hp
  split at hp
  · obtain ⟨q, hq, hpq⟩ := List.mem_map.mp hp
    by_cases hk : q.1 = k
    · rw [if_pos hk] at hpq
      exact Or.inl hpq.symm
    · rw [if_neg hk] at hpq
      exact Or.inr (hpq ▸ hq)
  · rcases List.mem_append.mp hp with h1 | h2
    · exact Or.inr h1
    · exact Or.inl (by simpa using h2)

/-- Height bound for the insertion descent: the subtree rooted at the
current node grows to at most `maxNodeDepth + 1 - depth` levels (new chains
stop at `maxNodeDepth`), never past the larger of that and its old height. -/
theorem insertLoop_height (cfg : Config) (n cid : Nat) :
    ∀ (tokens : List String) (depth : Nat) (node : Node) (cache : ClusterCache)
      (node' : Node) (cache' : ClusterCache),
      insertLoop cfg n cid tokens depth node cache = .ok (node', cache') →
      node'.height ≤ max node.height (cfg.maxNodeDepth + 1 - depth) := by
  intro tokens
  induction tokens with
  | nil =>
    intro depth node cache node' cache' h
    simp only [insertLoop, Except.ok.injEq, Prod.mk.injEq] at h
    obtain ⟨h1, _⟩ := h
    subst h1
    exact Nat.le_max_left _ _
  | cons token rest ih =>
    intro depth node cache node' cache' h
    obtain ⟨cs, ids0⟩ := node
    simp only [insertLoop, Node.keyToChildNode, Node.clusterIDs, height_mk] at h ⊢
    split at h
    · rcases hpr : pruneIDs ids0 cache with ⟨ids1, cache1⟩
      rw [hpr] at h
      simp only [Except.ok.injEq, Prod.mk.injEq] at h
      obtain ⟨h1, _⟩ := h
      subst h1
      rw [height_mk]
      omega
    · next hcond =>
      push_neg at hcond
      obtain ⟨hd1, _⟩ := hcond
      split at h
      · next child hlook =>
        split at h
        · exact absurd h (by simp)
        · next child' cache1 hrec =>
          simp only [Except.ok.injEq, Prod.mk.injEq] at h
          obtain ⟨h1, _⟩ := h
          subst h1
          have hih := ih (depth + 1) child cache child' cache1 hrec
          have hlk := heightList_of_lookup cs token child hlook
          have hset := heightList_setChild cs token child'
          rw [height_mk]
          omega
      · next hlooknone =>
        split at h
        · split at h
          · next wchild hwl =>
            split at h
            · split at h
              · exact absurd h (by simp)
              · next child' cache1 hrec =>
                simp only [Except.ok.injEq, Prod.mk.injEq] at h
                obtain ⟨h1, _⟩ := h
                subst h1
                have hih := ih (depth + 1) createNode cache child' cache1 hrec
                have hset := heightList_setChild cs token child'
                rw [height_mk]
                rw [height_createNode] at hih
                omega
            · split at h
              · exact absurd h (by simp)
              · next child' cache1 hrec =>
                simp only [Except.ok.injEq, Prod.mk.injEq] at h
                obtain ⟨h1, _⟩ := h
                subst h1
                have hih := ih (depth + 1) wchild cache child' cache1 hrec
                have hlk := heightList_of_lookup cs _ wchild hwl
                have hset := heightList_setChild cs (getParamString cfg.ParamPatterns token) child'
                rw [height_mk]
                omega
          · next hwlnone =>
            split at h
            · split at h
              · exact absurd h (by simp)
              · next child' cache1 hrec =>
                simp only [Except.ok.injEq, Prod.mk.injEq] at h
                obtain ⟨h1, _⟩ := h
                subst h1
                have hih := ih (depth + 1) createNode cache child' cache1 hrec
                have hset := heightList_setChild cs token child'
                rw [height_mk]
                rw [height_createNode] at hih
                omega
            · split at h
              · split at h
                · exact absurd h (by simp)
                · next child' cache1 hrec =>
                  simp only [Except.ok.injEq, Prod.mk.injEq] at h
                  obtain ⟨h1, _⟩ := h
                  subst h1
                  have hih := ih (depth + 1) createNode cache child' cache1 hrec
                  have hset := heightList_setChild cs (getParamString cfg.ParamPatterns token) child'
                  rw [height_mk]
                  rw [height_createNode] at hih
                  omega
              · split at h
                · next wchild hw2 => exact absurd hw2 (by simp)
                · exact absurd h (by simp)
        · split at h
          · next hwnone =>
            split at h
            · exact absurd h (by simp)
            · next child' cache1 hrec =>
              simp only [Except.ok.injEq, Prod.mk.injEq] at h
              obtain ⟨h1, _⟩ := h
              subst h1
              have hih := ih (depth + 1) createNode cache child' cache1 hrec
              have hset := heightList_setChild cs (getParamString cfg.ParamPatterns token) child'
              rw [height_mk]
              rw [height_createNode] at hih
              omega
          · next wchild hwl =>
            split at h
            · exact absurd h (by simp)
            · next child' cache1 hrec =>
              simp only [Except.ok.injEq, Prod.mk.injEq] at h
              obtain ⟨h1, _⟩ := h
              subst h1
              have hih := ih (depth + 1) wchild cache child' cache1 hrec
              have hlk := heightList_of_lookup cs _ wchild hwl
              have hset := heightList_setChild cs (getParamString cfg.ParamPatterns token) child'
              rw [height_mk]
              omega

theorem lookup_mem (cs : List (String × Node)) (k : String) (c : Node)
    (h : lookupChild cs k = some c) : ∃ e ∈ cs, e.2 = c := by
  unfold lookupChild at h
  cases hf : cs.find? (fun p => p.1 = k) with
  | none => rw [hf] at h; exact absurd h (by simp)
  | some e =>
    rw [hf] at h
    simp only [Option.map_some'] at h
    cases h
    exact ⟨e, List.mem_of_find?_eq_some hf, rfl⟩

theorem height_mk_keep (nd : Node) (ids : List Nat) :
    (Node.mk nd.keyToChildNode ids).height = nd.height := by
  obtain ⟨cs, ids0⟩ := nd
  rw [Node.keyToChildNode, height_mk, height_mk]

/-- Inserting a template never pushes a first-level (token-count) subtree
above `maxNodeDepth` levels: the height invariant of the root's children is
preserved by `addSeqToPrefixTree`. -/
theorem addSeq_height (cfg : Config) (root : Node) (cl : Cluster)
    (cache cache' : ClusterCache) (root' : Node) (hmnd : 1 ≤ cfg.maxNodeDepth)
    (hroot : ∀ p ∈ root.keyToChildNode, (p.2 : Node).height ≤ cfg.maxNodeDepth)
    (h : addSeqToPrefixTree cfg root cl cache = .ok (root', cache')) :
    ∀ p ∈ root'.keyToChildNode, (p.2 : Node).height ≤ cfg.maxNodeDepth := by
  simp only [addSeqToPrefixTree] at h
  cases hlk : lookupChild root.keyToChildNode (toString cl.tokens.length) with
  | some fl =>
    rw [hlk] at h
    simp only [Option.getD_some] at h
    have hflh : fl.height ≤ cfg.maxNodeDepth := by
      obtain ⟨e, he, he2⟩ := lookup_mem _ _ _ hlk
      exact he2 ▸ hroot e he
    obtain ⟨fcs, fids⟩ := fl
    rw [height_mk] at hflh
    split at h
    · simp only [Except.ok.injEq, Prod.mk.injEq] at h
      obtain ⟨h1, _⟩ := h
      subst h1
      intro p hp
      simp only [Node.keyToChildNode] at hp
      rcases mem_setChild _ _ _ p hp with heq | hmem
      · subst heq
        simp only [Node.keyToChildNode, Node.clusterIDs, height_mk]
        omega
      · exact hroot p hmem
    · split at h
      · exact absurd h (by simp)
      · next fl' cache1 hil =>
        simp only [Except.ok.injEq, Prod.mk.injEq] at h
        obtain ⟨h1, _⟩ := h
        subst h1
        intro p hp
        simp only [Node.keyToChildNode] at hp
        rcases mem_setChild _ _ _ p hp with heq | hmem
        · subst heq
          have hb := insertLoop_height cfg cl.tokens.length cl.id cl.tokens 1
            (Node.mk fcs fids) cache fl' cache1 hil
          rw [height_mk] at hb
          simp only
          omega
        · exact hroot p hmem
  | none =>
    rw [hlk] at h
    simp only [Option.getD_none] at h
    split at h
    · simp only [Except.ok.injEq, Prod.mk.injEq] at h
      obtain ⟨h1, _⟩ := h
      subst h1
      intro p hp
      simp only [Node.keyToChildNode] at hp
      rcases mem_setChild _ _ _ p hp with heq | hmem
      · subst heq
        have : createNode.height ≤ cfg.maxNodeDepth := by
          rw [height_createNode]; omega
        simpa [height_mk_keep] using this
      · exact hroot p hmem
    · split at h
      · exact absurd h (by simp)
      · next fl' cache1 hil =>
        simp only [Except.ok.injEq, Prod.mk.injEq] at h
        obtain ⟨h1, _⟩ := h
        subst h1
        intro p hp
        simp only [Node.keyToChildNode] at hp
        rcases mem_setChild _ _ _ p hp with heq | hmem
        · subst heq
          have := insertLoop_height cfg cl.tokens.length cl.id cl.tokens 1 createNode cache
            fl' cache1 hil
          rw [height_createNode] at this
          simp only
          omega
        · exact hroot p hmem

/-! ### Reachable learner states -/

/-- The states a learner reaches from `New` by any sequence of successful
`Train` and `Match` calls. -/
inductive Reaches (cfg : Config) : Drain → Prop
  | init (d : Drain) : Drain.new cfg = .ok d → Reaches cfg d
  | train (d d' : Drain) (line : String) (c : Cluster) :
      Reaches cfg d → d.Train line = .ok (c, d') → Reaches cfg d'
  | mtch (d d' : Drain) (line : String) (r : Option Cluster) :
      Reaches cfg d → d.Match line = .ok (r, d') → Reaches cfg d'

/-- Case analysis of a successful `Train`: the configuration is untouched,
and the tree either is untouched (match path) or was rebuilt by one
`addSeqToPrefixTree` call (new-cluster path). -/
theorem Train_cases (d : Drain) (line : String) (c : Cluster) (d' : Drain)
    (h : d.Train line = .ok (c, d')) :
    d'.config = d.config ∧
    (d'.rootNode = d.rootNode ∨
      ∃ cl cache1 cache3, addSeqToPrefixTree d.config d.rootNode cl cache1 =
        .ok (d'.rootNode, cache3)) := by
  simp only [Drain.Train] at h
  split at h
  · exact absurd h (by simp)
  · next cache1 =>
    split at h
    · exact absurd h (by simp)
    · next root2 cache3 haddseq =>
      simp only [Except.ok.injEq, Prod.mk.injEq] at h
      obtain ⟨_, h2⟩ := h
      subst h2
      exact ⟨rfl, Or.inr ⟨_, _, cache3, haddseq⟩⟩
  · next mcl cch htss =>
    split at h
    · exact absurd h (by simp)
    · next newT hct =>
      rcases hget : (cch.mutate mcl.id (fun _ => ⟨newT, mcl.id, mcl.size + 1⟩)).Get mcl.id
        with ⟨o, cache3⟩
      rw [hget] at h
      simp only [Except.ok.injEq, Prod.mk.injEq] at h
      obtain ⟨_, h2⟩ := h
      subst h2
      exact ⟨rfl, Or.inl rfl⟩

/-- A successful `Match` keeps the configuration and the tree. -/
theorem Match_preserves (d : Drain) (line : String) (r : Option Cluster) (d' : Drain)
    (h : d.Match line = .ok (r, d')) :
    d'.config = d.config ∧ d'.rootNode = d.rootNode := by
  simp only [Drain.Match] at h
  split at h
  · exact absurd h (by simp)
  · simp only [Except.ok.injEq, Prod.mk.injEq] at h
    obtain ⟨_, h2⟩ := h
    subst h2
    exact ⟨rfl, rfl⟩

/-- The height invariant along every trace: the derived `maxNodeDepth` is
`ClusterDepth − 2` and every first-level (token-count) subtree has height at
most `maxNodeDepth`. -/
theorem reaches_inv (cfg : Config) (d : Drain) (h : Reaches cfg d) :
    d.config.maxNodeDepth = cfg.ClusterDepth - 2 ∧ 3 ≤ cfg.ClusterDepth ∧
    ∀ p ∈ d.rootNode.keyToChildNode, (p.2 : Node).height ≤ d.config.maxNodeDepth := by
  induction h with
  | init d hnew =>
    simp only [Drain.new] at hnew
    split at hnew
    · exact absurd hnew (by simp)
    · next hcd =>
      simp only [Except.ok.injEq] at hnew
      subst hnew
      exact ⟨rfl, by omega, by simp [createNode, Node.keyToChildNode]⟩
  | train d d' line c hr hTr ih =>
    obtain ⟨hmnd, hcd, hch⟩ := ih
    obtain ⟨hconf, hroot⟩ := Train_cases d line c d' hTr
    refine ⟨by rw [hconf]; exact hmnd, hcd, ?_⟩
    rcases hroot with heq | ⟨cl, cache1, cache3, haddseq⟩
    · rw [heq, hconf]
      exact hch
    · rw [hconf]
      exact addSeq_height d.config d.rootNode cl cache1 cache3 d'.rootNode (by omega)
        hch haddseq
  | mtch d d' line r hr hM ih =>
    obtain ⟨hmnd, hcd, hch⟩ := ih
    obtain ⟨hconf, heq⟩ := Match_preserves d line r d' hM
    exact ⟨by rw [hconf]; exact hmnd, hcd, by rw [heq, hconf]; exact hch⟩

/-- C7 (amended): the depth half of the claim holds for every reachable
state — counting the root itself, the longest path has at most
`ClusterDepth − 1` nodes, i.e. at most `ClusterDepth − 2 ≤ ClusterDepth − 1`
levels below the root (the token-count level plus at most
`maxNodeDepth − 1` token levels).  The fan-out half of the claim is refuted
by `c7_counterexample` (the root is never capped; inner nodes can also
exceed the cap through per-label wildcards). -/
theorem c7_amended (cfg : Config) (d : Drain) (h : Reaches cfg d) :
    Node.height d.rootNode ≤ cfg.ClusterDepth - 1 := by
  obtain ⟨hmnd, hcd, hch⟩ := reaches_inv cfg d h
  rcases hroot : d.rootNode with ⟨cs, ids⟩
  rw [hroot] at hch
  rw [height_mk]
  have hcs : heightList cs ≤ d.config.maxNodeDepth :=
    heightList_le_of_forall cs _ (by
      intro p hp
      exact hch p (by simpa [Node.keyToChildNode] using hp))
  omega

/-- Witness for C7 (amended) at the freshly constructed default learner. -/
theorem c7_amended_witness :
    ∃ d, Drain.new DefaultConfig = .ok d ∧
      Node.height d.rootNode ≤ DefaultConfig.ClusterDepth - 1 :=
  ⟨_, rfl, c7_amended DefaultConfig _ (Reaches.init _ rfl)⟩

/-! ### The single-label fan-out invariant (for the amended C9) -/

mutual

/-- Invariant of a tree node under a classifier that maps every token to the
single label `L`: whenever the `L`-wildcard child is missing the node still
has room for it under the cap (`|children| + 1 ≤ mc`), recursively. -/
def NodeOk (L : String) (mc : Nat) : Node → Prop
  | .mk cs _ => (lookupChild cs L = none → cs.length + 1 ≤ mc) ∧ NodeOkList L mc cs

/-- `NodeOk` for every child of a child list. -/
def NodeOkList (L : String) (mc : Nat) : List (String × Node) → Prop
  | [] => True
  | p :: rest => NodeOk L mc p.2 ∧ NodeOkList L mc rest

end

theorem nodeOk_createNode (L : String) (mc : Nat) (hmc : 1 ≤ mc) :
    NodeOk L mc createNode := by
  rw [createNode, NodeOk, NodeOkList]
  exact ⟨fun _ => by simpa using hmc, trivial⟩

theorem nodeOkList_mem (L : String) (mc : Nat) :
    ∀ (cs : List (String × Node)) (e : String × Node),
      NodeOkList L mc cs → e ∈ cs → NodeOk L mc e.2 := by
  intro cs
  induction cs with
  | nil => intro e _ he; simp at he
  | cons hd tl ih =>
    intro e hok he
    rw [NodeOkList] at hok
    rcases List.mem_cons.mp he with rfl | hmem
    · exact hok.1
    · exact ih e hok.2 hmem

theorem nodeOkList_lookup (L : String) (mc : Nat) (cs : List (String × Node))
    (k : String) (c : Node) (hok : NodeOkList L mc cs)
    (h : lookupChild cs k = some c) : NodeOk L mc c := by
  obtain ⟨e, he, he2⟩ := lookup_mem cs k c h
  exact he2 ▸ nodeOkList_mem L mc cs e hok he

theorem lookupChild_setChild_self (cs : List (String × Node)) (k : String) (v : Node) :
    lookupChild (setChild cs k v) k = some v := by
  unfold setChild
  split
  · next hsome =>
    unfold lookupChild at hsome ⊢
    induction cs with
    | nil => simp at hsome
    | cons hd tl ih =>
      by_cases hk : hd.1 = k
      · simp only [List.map_cons, if_pos hk]
        rw [List.find?_cons_of_pos _ (by simp)]
        rfl
      · simp only [List.map_cons, if_neg hk]
        rw [List.find?_cons_of_neg _ (by simpa using hk)]
        rw [List.find?_cons_of_neg _ (by simpa using hk)] at hsome
        exact ih hsome
  · unfold lookupChild
    induction cs with
    | nil => simp
    | cons hd tl ih =>
      next hnone =>
      by_cases hk : hd.1 = k
      · exfalso
        apply hnone
        unfold lookupChild
        rw [List.find?_cons_of_pos _ (by simpa using hk)]
        simp
      · rw [List.cons_append, List.find?_cons_of_neg _ (by simpa using hk)]
        apply ih
        intro habs
        apply hnone
        unfold lookupChild at habs ⊢
        rw [List.find?_cons_of_neg _ (by simpa using hk)]
        exact habs

theorem lookupChild_setChild_ne (cs : List (String × Node)) (k k' : String) (v : Node)
    (hne : k' ≠ k) : lookupChild (setChild cs k v) k' = lookupChild cs k' := by
  have hne' : ¬ k = k' := fun habs => hne habs.symm
  unfold setChild
  split
  · next hsome =>
    clear hsome
    unfold lookupChild
    induction cs with
    | nil => simp
    | cons hd tl ih =>
      by_cases hk : hd.1 = k
      · have hhd : ¬ hd.1 = k' := fun habs => hne' (hk.symm.trans habs)
        simp only [List.map_cons, if_pos hk]
        rw [List.find?_cons_of_neg _ (by simpa using hne'),
          List.find?_cons_of_neg _ (by simpa using hhd)]
        exact ih
      · simp only [List.map_cons, if_neg hk]
        by_cases hk' : hd.1 = k'
        · rw [List.find?_cons_of_pos _ (by simpa using hk'),
            List.find?_cons_of_pos _ (by simpa using hk')]
        · rw [List.find?_cons_of_neg _ (by simpa using hk'),
            List.find?_cons_of_neg _ (by simpa using hk')]
          exact ih
  · next hnone =>
    clear hnone
    unfold lookupChild
    induction cs with
    | nil =>
      simp only [List.nil_append]
      rw [List.find?_cons_of_neg _ (by simpa using hne'), List.find?_nil]
    | cons hd tl ih =>
      by_cases hk' : hd.1 = k'
      · rw [List.cons_append, List.find?_cons_of_pos _ (by simpa using hk'),
          List.find?_cons_of_pos _ (by simpa using hk')]
      · rw [List.cons_append, List.find?_cons_of_neg _ (by simpa using hk'),
          List.find?_cons_of_neg _ (by simpa using hk')]
        exact ih

theorem length_setChild_absent (cs : List (String × Node)) (k : String) (v : Node)
    (h : lookupChild cs k = none) : (setChild cs k v).length = cs.length + 1 := by
  unfold setChild
  rw [h]
  simp

theorem nodeOkList_append (L : String) (mc : Nat) (k : String) (v : Node) :
    ∀ cs : List (String × Node), NodeOkList L mc cs → NodeOk L mc v →
      NodeOkList L mc (cs ++ [(k, v)]) := by
  intro cs
  induction cs with
  | nil =>
    intro _ hv
    rw [List.nil_append, NodeOkList, NodeOkList]
    exact ⟨hv, trivial⟩
  | cons hd tl ih =>
    intro hok hv
    rw [NodeOkList] at hok
    rw [List.cons_append, NodeOkList]
    exact ⟨hok.1, ih hok.2 hv⟩

theorem nodeOkList_replace (L : String) (mc : Nat) (k : String) (v : Node) :
    ∀ cs : List (String × Node), NodeOkList L mc cs → NodeOk L mc v →
      NodeOkList L mc (cs.map (fun p => if p.1 = k then (k, v) else p)) := by
  intro cs
  induction cs with
  | nil => intro _ _; rw [List.map_nil]; trivial
  | cons hd tl ih =>
    intro hok hv
    rw [NodeOkList] at hok
    rw [List.map_cons]
    by_cases hk : hd.1 = k
    · rw [if_pos hk, NodeOkList]
      exact ⟨hv, ih hok.2 hv⟩
    · rw [if_neg hk, NodeOkList]
      exact ⟨hok.1, ih hok.2 hv⟩

theorem nodeOkList_setChild (L : String) (mc : Nat) (cs : List (String × Node))
    (k : String) (v : Node) (hok : NodeOkList L mc cs) (hv : NodeOk L mc v) :
    NodeOkList L mc (setChild cs k v) := by
  unfold setChild
  split
  · exact nodeOkList_replace L mc k v cs hok hv
  · exact nodeOkList_append L mc k v cs hok hv

theorem length_setChild_present (cs : List (String × Node)) (k : String) (v : Node)
    (h : (lookupChild cs k).isSome) : (setChild cs k v).length = cs.length := by
  unfold setChild
  rw [if_pos h]
  exact List.length_map _ _

/-- Under a classifier that sends every token to the single label `L` (e.g.
the default catch-all `*` pattern) and a positive cap, the insertion descent
can never take the `k + 1 > MaxChildren` case with the wildcard child
missing, so it never dereferences a nil child: it always succeeds, and it
preserves the node invariant. -/
theorem insertLoop_ok (cfg : Config) (n cid : Nat) (L : String)
    (hL : ∀ tok, getParamString cfg.ParamPatterns tok = L) (hmc : 1 ≤ cfg.MaxChildren) :
    ∀ (tokens : List String) (depth : Nat) (node : Node) (cache : ClusterCache),
      NodeOk L cfg.MaxChildren node →
      ∃ node' cache', insertLoop cfg n cid tokens depth node cache = .ok (node', cache') ∧
        NodeOk L cfg.MaxChildren node' := by
  intro tokens
  induction tokens with
  | nil =>
    intro depth node cache hok
    exact ⟨node, cache, rfl, hok⟩
  | cons token rest ih =>
    intro depth node cache hok
    obtain ⟨cs, ids0⟩ := node
    rw [NodeOk] at hok
    obtain ⟨hcap, hlist⟩ := hok
    by_cases hterm : cfg.maxNodeDepth ≤ depth ∨ n ≤ depth
    · rcases hpr : pruneIDs ids0 cache with ⟨ids1, cache1⟩
      refine ⟨.mk cs (ids1 ++ [cid]), cache1, ?_, by rw [NodeOk]; exact ⟨hcap, hlist⟩⟩
      simp only [insertLoop, Node.keyToChildNode, Node.clusterIDs]
      rw [if_pos hterm, hpr]
    · cases hlook : lookupChild cs token with
      | some child =>
        obtain ⟨child', cache1, hrec, hok'⟩ := ih (depth + 1) child cache
          (nodeOkList_lookup L cfg.MaxChildren cs token child hlist hlook)
        refine ⟨.mk (setChild cs token child') ids0, cache1, ?_, ?_⟩
        · simp only [insertLoop, Node.keyToChildNode, Node.clusterIDs]
          rw [if_neg hterm]
          simp only [hlook, hrec]
        · rw [NodeOk]
          refine ⟨?_, nodeOkList_setChild L cfg.MaxChildren cs token child' hlist hok'⟩
          by_cases htk : token = L
          · intro habs
            rw [htk, lookupChild_setChild_self] at habs
            cases habs
          · intro habs
            rw [lookupChild_setChild_ne cs token L child' (fun hh => htk hh.symm)] at habs
            rw [length_setChild_present cs token child' (by rw [hlook]; rfl)]
            exact hcap habs
      | none =>
        by_cases hnum : hasNumbers token = true
        · cases hwl : lookupChild cs L with
          | none =>
            obtain ⟨child', cache1, hrec, hok'⟩ := ih (depth + 1) createNode cache
              (nodeOk_createNode L cfg.MaxChildren hmc)
            refine ⟨.mk (setChild cs L child') ids0, cache1, ?_, ?_⟩
            · simp only [insertLoop, Node.keyToChildNode, Node.clusterIDs]
              rw [if_neg hterm]
              simp only [hlook, hnum, hL, hwl, hrec]
              simp
            · rw [NodeOk]
              refine ⟨fun habs => ?_,
                nodeOkList_setChild L cfg.MaxChildren cs L child' hlist hok'⟩
              rw [lookupChild_setChild_self] at habs
              cases habs
          | some wchild =>
            obtain ⟨child', cache1, hrec, hok'⟩ := ih (depth + 1) wchild cache
              (nodeOkList_lookup L cfg.MaxChildren cs L wchild hlist hwl)
            refine ⟨.mk (setChild cs L child') ids0, cache1, ?_, ?_⟩
            · simp only [insertLoop, Node.keyToChildNode, Node.clusterIDs]
              rw [if_neg hterm]
              simp only [hlook, hnum, hL, hwl, hrec]
              simp
            · rw [NodeOk]
              refine ⟨fun habs => ?_,
                nodeOkList_setChild L cfg.MaxChildren cs L child' hlist hok'⟩
              rw [lookupChild_setChild_self] at habs
              cases habs
        · have hnum' : hasNumbers token = false := by simpa using hnum
          cases hwl : lookupChild cs L with
          | some wchild =>
            have htk : ¬ token = L := by
              intro hh
              rw [hh, hwl] at hlook
              cases hlook
            by_cases hlt : cs.length < cfg.MaxChildren
            · obtain ⟨child', cache1, hrec, hok'⟩ := ih (depth + 1) createNode cache
                (nodeOk_createNode L cfg.MaxChildren hmc)
              refine ⟨.mk (setChild cs token child') ids0, cache1, ?_, ?_⟩
              · simp only [insertLoop, Node.keyToChildNode, Node.clusterIDs]
                rw [if_neg hterm]
                simp only [hlook, hnum', hL, hwl]
                simp only [Bool.false_eq_true, not_false_eq_true, if_true, ite_true,
                  if_pos hlt, hrec]
              · rw [NodeOk]
                refine ⟨fun habs => ?_,
                  nodeOkList_setChild L cfg.MaxChildren cs token child' hlist hok'⟩
                rw [lookupChild_setChild_ne cs token L child' (fun hh => htk hh.symm),
                  hwl] at habs
                cases habs
            · obtain ⟨child', cache1, hrec, hok'⟩ := ih (depth + 1) wchild cache
                (nodeOkList_lookup L cfg.MaxChildren cs L wchild hlist hwl)
              refine ⟨.mk (setChild cs L child') ids0, cache1, ?_, ?_⟩
              · simp only [insertLoop, Node.keyToChildNode, Node.clusterIDs]
                rw [if_neg hterm]
                simp only [hlook, hnum', hL, hwl]
                simp only [Bool.false_eq_true, not_false_eq_true, if_true, ite_true,
                  if_neg hlt, hrec]
              · rw [NodeOk]
                refine ⟨fun habs => ?_,
                  nodeOkList_setChild L cfg.MaxChildren cs L child' hlist hok'⟩
                rw [lookupChild_setChild_self] at habs
                cases habs
          | none =>
            have hroom : cs.length + 1 ≤ cfg.MaxChildren := hcap hwl
            by_cases h1 : cs.length + 1 < cfg.MaxChildren
            · obtain ⟨child', cache1, hrec, hok'⟩ := ih (depth + 1) createNode cache
                (nodeOk_createNode L cfg.MaxChildren hmc)
              refine ⟨.mk (setChild cs token child') ids0, cache1, ?_, ?_⟩
              · simp only [insertLoop, Node.keyToChildNode, Node.clusterIDs]
                rw [if_neg hterm]
                simp only [hlook, hnum', hL, hwl]
                simp only [Bool.false_eq_true, not_false_eq_true, if_true, ite_true,
                  if_pos h1, hrec]
              · rw [NodeOk]
                refine ⟨?_, nodeOkList_setChild L cfg.MaxChildren cs token child' hlist hok'⟩
                by_cases htk : token = L
                · intro habs
                  rw [htk, lookupChild_setChild_self] at habs
                  cases habs
                · intro habs
                  rw [length_setChild_absent cs token child' hlook]
                  omega
            · by_cases h2 : cs.length + 1 = cfg.MaxChildren
              · obtain ⟨child', cache1, hrec, hok'⟩ := ih (depth + 1) createNode cache
                  (nodeOk_createNode L cfg.MaxChildren hmc)
                refine ⟨.mk (setChild cs L child') ids0, cache1, ?_, ?_⟩
                · simp only [insertLoop, Node.keyToChildNode, Node.clusterIDs]
                  rw [if_neg hterm]
                  simp only [hlook, hnum', hL, hwl]
                  simp only [Bool.false_eq_true, not_false_eq_true, if_true, ite_true,
                    if_neg h1, if_pos h2, hrec]
                · rw [NodeOk]
                  refine ⟨fun habs => ?_,
                    nodeOkList_setChild L cfg.MaxChildren cs L child' hlist hok'⟩
                  rw [lookupChild_setChild_self] at habs
                  cases habs
              · exact absurd hroom (by omega)

/-- Under the single-label classifier, a whole tree insertion always
succeeds and preserves the invariant on the root's children. -/
theorem addSeq_ok (cfg : Config) (L : String)
    (hL : ∀ tok, getParamString cfg.ParamPatterns tok = L) (hmc : 1 ≤ cfg.MaxChildren)
    (root : Node) (cl : Cluster) (cache : ClusterCache)
    (hroot : NodeOkList L cfg.MaxChildren root.keyToChildNode) :
    ∃ root' cache', addSeqToPrefixTree cfg root cl cache = .ok (root', cache') ∧
      NodeOkList L cfg.MaxChildren root'.keyToChildNode := by
  obtain ⟨rcs, rids⟩ := root
  rw [Node.keyToChildNode] at hroot
  have hfl : NodeOk L cfg.MaxChildren
      ((lookupChild rcs (toString cl.tokens.length)).getD createNode) := by
    cases hlk : lookupChild rcs (toString cl.tokens.length) with
    | none => exact nodeOk_createNode L cfg.MaxChildren hmc
    | some fl =>
      rw [Option.getD_some]
      exact nodeOkList_lookup L cfg.MaxChildren rcs _ fl hroot hlk
  rcases hgd : (lookupChild rcs (toString cl.tokens.length)).getD createNode
    with ⟨fcs, fids⟩
  rw [hgd] at hfl
  by_cases h0 : cl.tokens.length = 0
  · refine ⟨.mk (setChild rcs (toString cl.tokens.length) (.mk fcs (fids ++ [cl.id])))
      rids, cache, ?_, ?_⟩
    · simp only [addSeqToPrefixTree, Node.keyToChildNode, Node.clusterIDs, hgd]
      rw [if_pos h0]
    · rw [Node.keyToChildNode]
      apply nodeOkList_setChild L cfg.MaxChildren rcs _ _ hroot
      rw [NodeOk] at hfl ⊢
      exact hfl
  · obtain ⟨fl', cache1, hil, hok'⟩ := insertLoop_ok cfg cl.tokens.length cl.id L hL hmc
      cl.tokens 1 (.mk fcs fids) cache hfl
    refine ⟨.mk (setChild rcs (toString cl.tokens.length) fl') rids, cache1, ?_, ?_⟩
    · simp only [addSeqToPrefixTree, Node.keyToChildNode, Node.clusterIDs, hgd]
      rw [if_neg h0, hil]
    · rw [Node.keyToChildNode]
      exact nodeOkList_setChild L cfg.MaxChildren rcs _ _ hroot hok'

/-- The single-label fan-out invariant holds in every reachable state. -/
theorem reaches_nodeOk (cfg : Config) (L : String) (d : Drain)
    (hL : ∀ tok, getParamString cfg.ParamPatterns tok = L)
    (hmc : 1 ≤ cfg.MaxChildren) (h : Reaches cfg d) :
    NodeOkList L cfg.MaxChildren d.rootNode.keyToChildNode ∧
    d.config.ParamPatterns = cfg.ParamPatterns ∧
    d.config.MaxChildren = cfg.MaxChildren := by
  induction h with
  | init d hnew =>
    simp only [Drain.new] at hnew
    split at hnew
    · exact absurd hnew (by simp)
    · simp only [Except.ok.injEq] at hnew
      subst hnew
      refine ⟨?_, rfl, rfl⟩
      rw [createNode, Node.keyToChildNode, NodeOkList]
      trivial
  | train d d' line c hr hTr ih =>
    obtain ⟨hinv, hpp, hmcs⟩ := ih
    obtain ⟨hconf, hroot⟩ := Train_cases d line c d' hTr
    refine ⟨?_, by rw [hconf]; exact hpp, by rw [hconf]; exact hmcs⟩
    rcases hroot with heq | ⟨cl, cache1, cache3, haddseq⟩
    · rw [heq]
      exact hinv
    · have hL' : ∀ tok, getParamString d.config.ParamPatterns tok = L := by
        intro tok
        rw [hpp]
        exact hL tok
      obtain ⟨root', cache', heq', hok'⟩ := addSeq_ok d.config L hL'
        (by rw [hmcs]; exact hmc) d.rootNode cl cache1 (by rw [hmcs]; exact hinv)
      rw [haddseq] at heq'
      simp only [Except.ok.injEq, Prod.mk.injEq] at heq'
      obtain ⟨hr1, _⟩ := heq'
      rw [← hr1] at hok'
      rw [hmcs] at hok'
      exact hok'
  | mtch d d' line r hr hM ih =>
    obtain ⟨hinv, hpp, hmcs⟩ := ih
    obtain ⟨hconf, heq⟩ := Match_preserves d line r d' hM
    exact ⟨by rw [heq]; exact hinv, by rw [hconf]; exact hpp, by rw [hconf]; exact hmcs⟩

/-- C9 (amended): in every reachable state of a learner whose classifier
maps every token to one fixed label `L` (as the default catch-all `*`
pattern does) and whose cap is positive, inserting any cluster succeeds —
whenever the growth rules take the `k + 1 > MaxChildren` case, the wildcard
child keyed by `L` already exists and the descent moves into it.  With
several labels the claim is false and the descent crashes
(see `c9_counterexample`). -/
theorem c9_amended (cfg : Config) (L : String) (d : Drain)
    (hL : ∀ tok, getParamString cfg.ParamPatterns tok = L)
    (hmc : 1 ≤ cfg.MaxChildren) (h : Reaches cfg d)
    (cl : Cluster) (cache : ClusterCache) :
    ∃ root' cache', addSeqToPrefixTree d.config d.rootNode cl cache = .ok (root', cache') := by
  obtain ⟨hinv, hpp, hmcs⟩ := reaches_nodeOk cfg L d hL hmc h
  have hL' : ∀ tok, getParamString d.config.ParamPatterns tok = L := by
    intro tok
    rw [hpp]
    exact hL tok
  obtain ⟨root', cache', heq, _⟩ := addSeq_ok d.config L hL'
    (by rw [hmcs]; exact hmc) d.rootNode cl cache (by rw [hmcs]; exact hinv)
  exact ⟨root', cache', heq⟩

/-- The default `.*` pattern matches every string. -/
theorem matchAll_MatchString (s : String) : matchAllRegex.MatchString s = true := by
  rw [GoRegex.MatchString, List.any_eq_true]
  refine ⟨[], ?_, rfl⟩
  rw [mem_infixesOf]
  exact ⟨[], s.data, by simp⟩

/-- Under the default configuration the classifier sends every token to `*`. -/
theorem getParamString_default (tok : String) :
    getParamString DefaultConfig.ParamPatterns tok = "*" := by
  unfold getParamString DefaultConfig
  simp only
  rw [List.find?_cons_of_pos _ (by simpa using matchAll_MatchString tok)]

/-- Witness for C9 (amended): the freshly constructed default learner, the
cluster `⟨["a"], 1, 1⟩` and the empty unbounded cache. -/
theorem c9_amended_witness :
    ∃ root' cache',
      addSeqToPrefixTree (Drain.mk { DefaultConfig with maxNodeDepth := 2 } createNode
          (createClusterCache 0) 0).config
        (Drain.mk { DefaultConfig with maxNodeDepth := 2 } createNode
          (createClusterCache 0) 0).rootNode
        ⟨["a"], 1, 1⟩ (createClusterCache 0) = .ok (root', cache') :=
  c9_amended DefaultConfig "*"
    (Drain.mk { DefaultConfig with maxNodeDepth := 2 } createNode (createClusterCache 0) 0)
    getParamString_default (by decide)
    (Reaches.init _ (by rfl)) ⟨["a"], 1, 1⟩ (createClusterCache 0)

/-! ### The K-fold same-line training round trip (for the amended C8) -/

/-- The configuration of a freshly constructed default learner
(`New` sets `maxNodeDepth = ClusterDepth − 2 = 2`). -/
def dCfg : Config := { DefaultConfig with maxNodeDepth := 2 }

/-- The tree after inserting cluster 1 with template `toks` into the fresh
default learner: one token-count child; below it, for two or more tokens,
one child keyed by the first token (or by `*` when that token has digits). -/
def c8Tree (toks : List String) : Node :=
  match toks with
  | [] => createNode
  | [_] => .mk [(toString 1, .mk [] [1])] []
  | t0 :: _ :: _ =>
    .mk [(toString toks.length,
          .mk [(if hasNumbers t0 then "*" else t0, .mk [] [1])] [])] []

/-- The learner state after training the same line `k` times from the fresh
default learner (the line tokenizing to `toks`). -/
def c8State (toks : List String) (k : Nat) : Drain :=
  { config := dCfg, rootNode := c8Tree toks,
    idToCluster := ⟨goMaxInt, [(1, ⟨toks, 1, k⟩)]⟩, clustersCounter := 1 }

theorem countP_zip_diag (pp : List (String × GoRegex)) :
    ∀ ts : List String,
      (ts.zip ts).countP (fun p => !isParamKey pp p.1 && p.1 == p.2) =
        ts.length - ts.countP (fun t => isParamKey pp t) := by
  intro ts
  induction ts with
  | nil => simp
  | cons t ts ih =>
    have hle : ts.countP (fun t => isParamKey pp t) ≤ ts.length :=
      List.countP_le_length _
    rw [List.zip_cons_cons, List.countP_cons, List.countP_cons, ih, List.length_cons]
    by_cases hp : isParamKey pp t
    · simp [hp]
    · simp [hp]
      omega

theorem countP_zip_diag_snd (pp : List (String × GoRegex)) :
    ∀ ts : List String,
      (ts.zip ts).countP (fun p => isParamKey pp p.1) =
        ts.countP (fun t => isParamKey pp t) := by
  intro ts
  exact countP_zip_fst (fun t => isParamKey pp t) ts ts rfl

/-- Self-similarity: `getSeqDistance(toks, toks, false)` is the fraction of
non-label tokens. -/
theorem getSeqDistance_diag (pp : List (String × GoRegex)) (toks : List String) :
    getSeqDistance pp toks toks false =
      .ok (⟨((toks.length - toks.countP (fun t => isParamKey pp t) : Nat) : Int),
            (toks.length : Int)⟩, toks.countP (fun t => isParamKey pp t)) := by
  unfold getSeqDistance
  rw [if_neg (by simp)]
  rw [simCounts_eq_countP, countP_zip_diag, countP_zip_diag_snd]
  simp

/-- Training the same content again leaves the template unchanged. -/
theorem createTemplate_diag (pp : List (String × GoRegex)) (ts : List String) :
    createTemplate pp ts ts = .ok ts := by
  unfold createTemplate
  rw [if_neg (by simp)]
  have hstep : ∀ (js : List Nat), js.foldl (ctStep pp ts ts) ts = ts := by
    intro js
    induction js with
    | nil => rfl
    | cons j js ih =>
      rw [List.foldl_cons, ctStep_of_eq pp ts ts ts j rfl, ih]
  rw [hstep]

theorem c8_addSeq (toks : List String) (hne : toks ≠ []) (cache : ClusterCache) :
    addSeqToPrefixTree dCfg createNode ⟨toks, 1, 1⟩ cache = .ok (c8Tree toks, cache) := by
  cases toks with
  | nil => exact absurd rfl hne
  | cons t0 rest =>
    cases rest with
    | nil => rfl
    | cons t1 rest2 =>
      have hn : ¬ ((t0 :: t1 :: rest2).length = 0) := by simp
      have hnt : ¬ (dCfg.maxNodeDepth ≤ 1 ∨ (t0 :: t1 :: rest2).length ≤ 1) := by
        simp [dCfg]
      simp only [addSeqToPrefixTree, createNode, Node.keyToChildNode, Node.clusterIDs,
        lookupChild, List.find?_nil, Option.map_none', Option.getD_none]
      rw [if_neg hn]
      simp only [insertLoop, Node.keyToChildNode, Node.clusterIDs, lookupChild,
        List.find?_nil, Option.map_none']
      rw [if_neg hnt]
      have hps : getParamString dCfg.ParamPatterns t0 = "*" := getParamString_default t0
      by_cases hnum : hasNumbers t0 = true
      · simp only [hnum, hps]
        have hterm2 : dCfg.maxNodeDepth ≤ 2 ∨ (t0 :: t1 :: rest2).length ≤ 2 := by
          left
          simp [dCfg]
        simp only [insertLoop, Node.keyToChildNode, Node.clusterIDs, pruneIDs]
        rw [if_pos hterm2]
        simp [c8Tree, setChild, lookupChild, hnum, pruneIDs, createNode]
      · have hnum' : hasNumbers t0 = false := by simpa using hnum
        simp only [hnum', hps]
        have hterm2 : dCfg.maxNodeDepth ≤ 2 ∨ (t0 :: t1 :: rest2).length ≤ 2 := by
          left
          simp [dCfg]
        have hcap : (0 : Nat) + 1 < dCfg.MaxChildren := by simp [dCfg, DefaultConfig]
        simp only [insertLoop, Node.keyToChildNode, Node.clusterIDs, pruneIDs]
        rw [if_pos hterm2]
        simp [c8Tree, setChild, lookupChild, hnum', pruneIDs, hcap, createNode]

theorem dCfg_Tokenizer : dCfg.Tokenizer = SpaceTokenizer := rfl

theorem c8_train_first (L : String) :
    (Drain.mk dCfg createNode (createClusterCache 0) 0).Train L =
      .ok (⟨SpaceTokenizer L, 1, 1⟩, c8State (SpaceTokenizer L) 1) := by
  have hne := SpaceTokenizer_ne_nil L
  have hts : treeSearch dCfg createNode (SpaceTokenizer L) dCfg.SimTh false
      (createClusterCache 0) = .ok (none, createClusterCache 0) := by
    simp [treeSearch, createNode, Node.keyToChildNode, lookupChild]
  have hset : (createClusterCache 0).Set 1 ⟨SpaceTokenizer L, 1, 1⟩ =
      (⟨goMaxInt, [(1, ⟨SpaceTokenizer L, 1, 1⟩)]⟩ : ClusterCache) := by
    simp only [createClusterCache, ClusterCache.Set, List.find?_nil, if_pos rfl]
    norm_num [goMaxInt]
  simp only [Drain.Train, dCfg_Tokenizer, hts]
  simp only [Nat.zero_add, hset, c8_addSeq (SpaceTokenizer L) hne]
  simp [c8State]

theorem getParamString_dCfg (tok : String) :
    getParamString dCfg.ParamPatterns tok = "*" :=
  getParamString_default tok

theorem dCfg_maxNodeDepth : dCfg.maxNodeDepth = 2 := rfl

theorem c8_cacheGet (toks : List String) (k : Nat) :
    (⟨goMaxInt, [(1, ⟨toks, 1, k⟩)]⟩ : ClusterCache).Get 1 =
      (some ⟨toks, 1, k⟩, ⟨goMaxInt, [(1, ⟨toks, 1, k⟩)]⟩) := by
  simp [ClusterCache.Get]

theorem c8_fastMatch (toks : List String) (hpos : 0 < toks.length) (k : Nat) :
    fastMatch dCfg.ParamPatterns [1] toks dCfg.SimTh false
      ⟨goMaxInt, [(1, ⟨toks, 1, k⟩)]⟩ =
      .ok ((if dCfg.SimTh.ble
              ⟨((toks.length - toks.countP (fun t => isParamKey dCfg.ParamPatterns t) : Nat) : Int),
               (toks.length : Int)⟩
            then some ⟨toks, 1, k⟩ else none),
           ⟨goMaxInt, [(1, ⟨toks, 1, k⟩)]⟩) := by
  have hdist := getSeqDistance_diag dCfg.ParamPatterns toks
  have hblt : GoFloat.blt ⟨-1, 1⟩
      ⟨((toks.length - toks.countP (fun t => isParamKey dCfg.ParamPatterns t) : Nat) : Int),
       (toks.length : Int)⟩ = true := by
    simp only [GoFloat.blt, decide_eq_true_eq]
    omega
  simp only [fastMatch, fastLoop, c8_cacheGet, hdist, hblt]
  simp

theorem c8_treeSearch (toks : List String) (hne : toks ≠ []) (k : Nat) :
    treeSearch dCfg (c8Tree toks) toks dCfg.SimTh false
      ⟨goMaxInt, [(1, ⟨toks, 1, k⟩)]⟩ =
      .ok ((if dCfg.SimTh.ble
              ⟨((toks.length - toks.countP (fun t => isParamKey dCfg.ParamPatterns t) : Nat) : Int),
               (toks.length : Int)⟩
            then some ⟨toks, 1, k⟩ else none),
           ⟨goMaxInt, [(1, ⟨toks, 1, k⟩)]⟩) := by
  cases toks with
  | nil => exact absurd rfl hne
  | cons t0 rest =>
    cases rest with
    | nil =>
      have hfm := c8_fastMatch [t0] (by simp) k
      simp only [treeSearch, c8Tree, Node.keyToChildNode, Node.clusterIDs, lookupChild,
        searchLoop, dCfg_maxNodeDepth] at hfm ⊢
      simpa using hfm
    | cons t1 rest2 =>
      have hfm := c8_fastMatch (t0 :: t1 :: rest2) (by simp) k
      have hn0 : ¬ ((t0 :: t1 :: rest2).length = 0) := by simp
      have hn1 : ¬ ((1 : Nat) = (t0 :: t1 :: rest2).length) := by simp
      have hsl : searchLoop dCfg.ParamPatterns dCfg.maxNodeDepth (t0 :: t1 :: rest2).length
          (t0 :: t1 :: rest2) 1
          (Node.mk [(if hasNumbers t0 then "*" else t0, Node.mk [] [1])] []) =
          some (Node.mk [] [1]) := by
        by_cases hnum : hasNumbers t0 = true
        · have hstar : ¬ (("*" : String) = t0) := by
            intro hh
            rw [← hh] at hnum
            exact absurd hnum (by decide)
          simp [searchLoop, dCfg_maxNodeDepth, hnum, getParamString_dCfg,
            lookupChild, Node.keyToChildNode, hstar, hn1]
        · have hnum2 : hasNumbers t0 = false := by simpa using hnum
          simp [searchLoop, dCfg_maxNodeDepth, hnum2, lookupChild, Node.keyToChildNode, hn1]
      simp only [treeSearch, c8Tree, Node.keyToChildNode, Node.clusterIDs]
      simp only [show lookupChild
          [(toString (t0 :: t1 :: rest2).length,
            Node.mk [(if hasNumbers t0 = true then "*" else t0, Node.mk [] [1])] [])]
          (toString (t0 :: t1 :: rest2).length) =
          some (Node.mk [(if hasNumbers t0 = true then "*" else t0, Node.mk [] [1])] [])
        from by simp [lookupChild]]
      rw [if_neg hn0]
      simp only [hsl, Node.clusterIDs]
      exact hfm

theorem c8_mutate (toks : List String) (k : Nat) :
    (⟨goMaxInt, [(1, ⟨toks, 1, k⟩)]⟩ : ClusterCache).mutate 1
      (fun _ => ⟨toks, 1, k + 1⟩) = ⟨goMaxInt, [(1, ⟨toks, 1, k + 1⟩)]⟩ := by
  simp [ClusterCache.mutate]

theorem c8_train_step (L : String) (k : Nat)
    (hsim : dCfg.SimTh.ble
      ⟨(((SpaceTokenizer L).length -
          (SpaceTokenizer L).countP (fun t => isParamKey dCfg.ParamPatterns t) : Nat) : Int),
       ((SpaceTokenizer L).length : Int)⟩ = true) :
    (c8State (SpaceTokenizer L) k).Train L =
      .ok (⟨SpaceTokenizer L, 1, k + 1⟩, c8State (SpaceTokenizer L) (k + 1)) := by
  have hne := SpaceTokenizer_ne_nil L
  have hts := c8_treeSearch (SpaceTokenizer L) hne k
  rw [if_pos hsim] at hts
  simp only [Drain.Train, c8State, dCfg_Tokenizer]
  simp only [hts, createTemplate_diag, c8_mutate, c8_cacheGet]

theorem dCfg_SimTh : dCfg.SimTh = ⟨2, 5⟩ := rfl

theorem c8_fold (L : String)
    (hsim : dCfg.SimTh.ble
      ⟨(((SpaceTokenizer L).length -
          (SpaceTokenizer L).countP (fun t => isParamKey dCfg.ParamPatterns t) : Nat) : Int),
       ((SpaceTokenizer L).length : Int)⟩ = true) :
    ∀ m j : Nat,
      (List.replicate m L).foldlM
        (fun st line => (st.Train line).map (fun r => r.2))
        (c8State (SpaceTokenizer L) j) =
      .ok (c8State (SpaceTokenizer L) (j + m)) := by
  intro m
  induction m with
  | zero => intro j; rfl
  | succ m ih =>
    intro j
    rw [List.replicate_succ, List.foldlM_cons, c8_train_step L j hsim]
    have hstep : j + 1 + m = j + (m + 1) := by omega
    show (List.replicate m L).foldlM
        (fun st line => (st.Train line).map (fun r => r.2))
        (c8State (SpaceTokenizer L) (j + 1)) =
      Except.ok (c8State (SpaceTokenizer L) (j + (m + 1)))
    rw [ih (j + 1), hstep]

/-- C8 (amended): under the default configuration, for every line whose
self-similarity on the Train path clears the threshold — i.e.
`2·n ≤ 5·(n − s)` where `n` is the token count and `s` the number of tokens
equal to a configured label (the claim's original form fails when too many
tokens equal `*`, see `c8_counterexample`) — training the line `K ≥ 1` times
produces exactly one cluster, of size `K`, whose template is exactly the
tokenization of the line. -/
theorem c8_amended (L : String) (K : Nat) (hK : 1 ≤ K)
    (hsim : 2 * (SpaceTokenizer L).length ≤
      5 * ((SpaceTokenizer L).length -
        (SpaceTokenizer L).countP (fun t => isParamKey DefaultConfig.ParamPatterns t))) :
    ∃ d, run0 DefaultConfig (List.replicate K L) = .ok d ∧
      d.Clusters = [⟨SpaceTokenizer L, 1, K⟩] := by
  have hpp : dCfg.ParamPatterns = DefaultConfig.ParamPatterns := rfl
  have hble : dCfg.SimTh.ble
      ⟨(((SpaceTokenizer L).length -
          (SpaceTokenizer L).countP (fun t => isParamKey dCfg.ParamPatterns t) : Nat) : Int),
       ((SpaceTokenizer L).length : Int)⟩ = true := by
    rw [hpp, dCfg_SimTh]
    simp only [GoFloat.ble, decide_eq_true_eq]
    omega
  obtain ⟨K', rfl⟩ : ∃ K', K = K' + 1 := ⟨K - 1, by omega⟩
  refine ⟨c8State (SpaceTokenizer L) (K' + 1), ?_, ?_⟩
  · have hnew : Drain.new DefaultConfig =
        .ok (Drain.mk dCfg createNode (createClusterCache 0) 0) := rfl
    unfold run0
    rw [hnew]
    show (List.replicate (K' + 1) L).foldlM
        (fun st line => (st.Train line).map (fun r => r.2))
        (Drain.mk dCfg createNode (createClusterCache 0) 0) = _
    rw [List.replicate_succ, List.foldlM_cons, c8_train_first L]
    show (List.replicate K' L).foldlM
        (fun st line => (st.Train line).map (fun r => r.2))
        (c8State (SpaceTokenizer L) 1) = _
    rw [c8_fold L hble K' 1]
    rw [Nat.add_comm]
  · simp [Drain.Clusters, ClusterCache.Values, c8State]

/-- Witness for C8 (amended): the line `"a b"` trained twice. -/
theorem c8_amended_witness :
    ∃ d, run0 DefaultConfig (List.replicate 2 "a b") = .ok d ∧
      d.Clusters = [⟨SpaceTokenizer "a b", 1, 2⟩] :=
  c8_amended "a b" 2 (by decide) (by decide)
